import Mathlib

/-!
Shallow embedding of the proposal-inverter accounting engine
(`src/parameterized/funds.py`, `src/parameterized/agreement.py`,
`src/parameterized/whitelist_mechanism.py`,
`src/parameterized/proposal_inverter.py`).

Python floats are modelled as rationals (ℚ).  A Python `Funds` object is a
`defaultdict(float)`: reading a missing token yields 0.  We model it as a
list of present keys together with a total amount function; the well-formed
states (`Funds.WF`) are those where the amount is 0 off the key list and the
key list has no duplicates, which is exactly what Python dicts can represent.

A raised Python exception is modelled by an explicit error outcome; the state
returned alongside a fatal outcome is the partially mutated state exactly as
the Python code leaves it when the exception propagates.
-/

namespace PropInv

/-- Error kinds corresponding to the exceptions the Python code can raise:
`ValueError` from `Funds` arithmetic (negative balance / negative factor),
`ZeroDivisionError` from scalar division by zero, and the `ValueError`
raised by `ProposalInverter.join` on insufficient broker funds. -/
inductive Err where
  | negativeBalance
  | invalidFactor
  | zeroDivision
  | insufficientFunds
deriving DecidableEq

/-- `Funds` (funds.py): a multi-token balance.  `keys` lists the tokens
present in the underlying dict, `amt` gives the per-token amount (0 for
absent tokens in any well-formed state). -/
structure Funds where
  keys : List String
  amt : String → ℚ

namespace Funds

/-- The empty ledger `Funds()`. -/
def empty : Funds := ⟨[], fun _ => 0⟩

/-- Build a ledger from an explicit token/amount list (models `Funds(dict)`). -/
def mkF (l : List (String × ℚ)) : Funds :=
  ⟨l.map Prod.fst, fun t => (((l.find? (fun p => p.1 = t)).map Prod.snd).getD 0)⟩

/-- `Funds.__negative`: some token of `other` would drive the result below 0. -/
def negB (self other : Funds) (factor : ℚ) : Bool :=
  other.keys.any (fun t => decide (self.amt t + factor * other.amt t < 0))

/-- Key list of the dict after writing every key of `b` into (a copy of) `a`. -/
def unionKeys (a b : List String) : List String :=
  a ++ b.filter (fun t => decide (t ∉ a))

/-- The unchecked token-wise sum: for every token of `b`,
`result[t] = a[t] + b[t]`; all other tokens keep `a`'s amount.  This is the
write loop shared by `Funds.__add__` (after its negativity check) and by the
per-token `+=` statements in `__claim_broker_funds`. -/
def addU (a b : Funds) : Funds :=
  ⟨unionKeys a.keys b.keys,
   fun t => if t ∈ b.keys then a.amt t + b.amt t else a.amt t⟩

/-- The unchecked token-wise difference (write loop of `Funds.__sub__`, and
the per-token `-=` statements in `__claim_broker_funds`). -/
def subU (a b : Funds) : Funds :=
  ⟨unionKeys a.keys b.keys,
   fun t => if t ∈ b.keys then a.amt t - b.amt t else a.amt t⟩

/-- `Funds.__add__`: fails with a negative-balance error if any token of
`other` would make the result negative, otherwise commits the sum. -/
def add (a b : Funds) : Except Err Funds :=
  if negB a b 1 then .error .negativeBalance else .ok (addU a b)

/-- `Funds.__sub__`. -/
def sub (a b : Funds) : Except Err Funds :=
  if negB a b (-1) then .error .negativeBalance else .ok (subU a b)

/-- Python `x += y` on a `Funds` variable: when the checked addition raises,
the exception aborts the statement and `x` keeps its previous ledger. -/
def iadd (a b : Funds) : Funds :=
  match add a b with
  | .ok c => c
  | .error _ => a

/-- Python `x -= y` on a `Funds` variable. -/
def isub (a b : Funds) : Funds :=
  match sub a b with
  | .ok c => c
  | .error _ => a

/-- `Funds.__mul__`: scalar multiple; a negative factor raises.  The result
is a fresh `Funds` holding only `a`'s tokens. -/
def smul (a : Funds) (k : ℚ) : Except Err Funds :=
  if k < 0 then .error .invalidFactor
  else .ok ⟨a.keys, fun t => if t ∈ a.keys then a.amt t * k else 0⟩

/-- `Funds.__truediv__`: scalar division; a negative factor raises
`ValueError`, a zero factor raises `ZeroDivisionError`. -/
def sdiv (a : Funds) (k : ℚ) : Except Err Funds :=
  if k < 0 then .error .invalidFactor
  else if k = 0 then .error .zeroDivision
  else .ok ⟨a.keys, fun t => if t ∈ a.keys then a.amt t / k else 0⟩

/-- `Funds.__lt__`: all tokens present in the right-hand operand compare
strictly; tokens held only by the left operand are not examined. -/
def ltF (a b : Funds) : Bool :=
  b.keys.all (fun t => decide (a.amt t < b.amt t))

/-- `Funds.__le__`. -/
def leF (a b : Funds) : Bool :=
  b.keys.all (fun t => decide (a.amt t ≤ b.amt t))

/-- `Funds.__eq__`. -/
def eqF (a b : Funds) : Bool :=
  b.keys.all (fun t => decide (a.amt t = b.amt t))

/-- `Funds.__ne__`. -/
def neF (a b : Funds) : Bool :=
  b.keys.all (fun t => decide (a.amt t ≠ b.amt t))

/-- `Funds.__ge__`. -/
def geF (a b : Funds) : Bool :=
  b.keys.all (fun t => decide (a.amt t ≥ b.amt t))

/-- `Funds.__gt__`. -/
def gtF (a b : Funds) : Bool :=
  b.keys.all (fun t => decide (a.amt t > b.amt t))

/-- Python `min(a, b)` on two `Funds` values: returns `b` when `b < a`
under `Funds.__lt__`, else `a` (used by `ProposalInverter.cancel`). -/
def pymin (a b : Funds) : Funds := if ltF b a then b else a

/-- `Funds.convert`: `n * price[from] / price[to]`. -/
def convert (price : String → ℚ) (fromT toT : String) (n : ℚ) : ℚ :=
  n * price fromT / price toT

/-- `Funds.total_funds`: the sum of all present amounts converted into
`toT` at the shared price table. -/
def total (price : String → ℚ) (toT : String) (f : Funds) : ℚ :=
  (f.keys.map (fun t => convert price t toT (f.amt t))).sum

/-- Zero out exactly the present tokens (the
`allocated_funds[token] = 0` loop in `__claim_broker_funds`). -/
def zeroKeys (f : Funds) : Funds :=
  ⟨f.keys, fun t => if t ∈ f.keys then 0 else f.amt t⟩

/-- Every per-token amount is nonnegative. -/
def Nonneg (f : Funds) : Prop := ∀ t, 0 ≤ f.amt t

/-- Well-formed ledgers: exactly the states a Python dict can hold — no
duplicate keys, and absent tokens read as 0. -/
def WF (f : Funds) : Prop := f.keys.Nodup ∧ ∀ t, t ∉ f.keys → f.amt t = 0

theorem empty_WF : empty.WF := ⟨List.nodup_nil, fun _ _ => rfl⟩

theorem mkF_WF (l : List (String × ℚ)) (h : (l.map Prod.fst).Nodup) :
    (mkF l).WF := by
  refine ⟨h, fun t ht => ?_⟩
  simp only [mkF] at ht ⊢
  have : l.find? (fun p => p.1 = t) = none := by
    rw [List.find?_eq_none]
    intro p hp
    simp only [decide_eq_true_eq]
    intro hpt
    exact ht (List.mem_map.2 ⟨p, hp, hpt⟩)
  simp [this]

theorem mem_unionKeys {a b : List String} {t : String} :
    t ∈ unionKeys a b ↔ t ∈ a ∨ t ∈ b := by
  simp only [unionKeys, List.mem_append, List.mem_filter, decide_eq_true_eq]
  by_cases h : t ∈ a <;> simp [h]

theorem nodup_unionKeys {a b : List String} (ha : a.Nodup) (hb : b.Nodup) :
    (unionKeys a b).Nodup := by
  refine List.Nodup.append ha (hb.filter _) ?_
  intro t hta htf
  rcases List.mem_filter.1 htf with ⟨-, hd⟩
  exact (of_decide_eq_true hd) hta

theorem toFinset_unionKeys {a b : List String} :
    (unionKeys a b).toFinset = a.toFinset ∪ b.toFinset := by
  ext t
  simp [mem_unionKeys]

theorem addU_WF {a b : Funds} (ha : a.WF) (hb : b.WF) : (addU a b).WF := by
  refine ⟨nodup_unionKeys ha.1 hb.1, fun t ht => ?_⟩
  rw [show (addU a b).keys = unionKeys a.keys b.keys from rfl, mem_unionKeys] at ht
  push_neg at ht
  simp only [addU, if_neg ht.2]
  exact ha.2 t ht.1

theorem subU_WF {a b : Funds} (ha : a.WF) (hb : b.WF) : (subU a b).WF := by
  refine ⟨nodup_unionKeys ha.1 hb.1, fun t ht => ?_⟩
  rw [show (subU a b).keys = unionKeys a.keys b.keys from rfl, mem_unionKeys] at ht
  push_neg at ht
  simp only [subU, if_neg ht.2]
  exact ha.2 t ht.1

theorem zeroKeys_WF {f : Funds} (hf : f.WF) : f.zeroKeys.WF := by
  refine ⟨hf.1, fun t ht => ?_⟩
  simp only [zeroKeys] at ht ⊢
  rw [if_neg ht]
  exact hf.2 t ht

theorem convert_add (price : String → ℚ) (fromT toT : String) (x y : ℚ) :
    convert price fromT toT (x + y) =
      convert price fromT toT x + convert price fromT toT y := by
  simp only [convert]
  ring

theorem convert_sub (price : String → ℚ) (fromT toT : String) (x y : ℚ) :
    convert price fromT toT (x - y) =
      convert price fromT toT x - convert price fromT toT y := by
  simp only [convert]
  ring

theorem convert_zero (price : String → ℚ) (fromT toT : String) :
    convert price fromT toT 0 = 0 := by
  simp [convert]

/-- The total of a well-formed ledger can be computed as a finset sum over
any key superset: absent tokens contribute 0. -/
theorem total_eq_sum_over {price : String → ℚ} {toT : String} {f : Funds}
    {L : List String} (hf : f.WF) (hsub : f.keys ⊆ L) :
    f.total price toT = ∑ t ∈ L.toFinset, convert price t toT (f.amt t) := by
  have h1 : f.total price toT =
      ∑ t ∈ f.keys.toFinset, convert price t toT (f.amt t) := by
    rw [total, ← List.sum_toFinset _ hf.1]
  rw [h1]
  refine Finset.sum_subset ?_ ?_
  · intro t ht
    exact List.mem_toFinset.2 (hsub (List.mem_toFinset.1 ht))
  · intro t _ ht
    rw [hf.2 t (fun hm => ht (List.mem_toFinset.2 hm)), convert_zero]

/-- Token-wise unchecked addition adds the totals. -/
theorem total_addU {price : String → ℚ} {toT : String} {a b : Funds}
    (ha : a.WF) (hb : b.WF) :
    (addU a b).total price toT = a.total price toT + b.total price toT := by
  have hU : (addU a b).total price toT =
      ∑ t ∈ (unionKeys a.keys b.keys).toFinset,
        convert price t toT ((addU a b).amt t) :=
    total_eq_sum_over (addU_WF ha hb) (by intro t ht; exact ht)
  rw [hU]
  have hpt : ∀ t ∈ (unionKeys a.keys b.keys).toFinset,
      convert price t toT ((addU a b).amt t) =
        convert price t toT (a.amt t) +
          (if t ∈ b.keys then convert price t toT (b.amt t) else 0) := by
    intro t _
    simp only [addU]
    by_cases hbt : t ∈ b.keys
    · rw [if_pos hbt, if_pos hbt, convert_add]
    · rw [if_neg hbt, if_neg hbt, add_zero]
  rw [Finset.sum_congr rfl hpt, Finset.sum_add_distrib]
  have h2 : ∑ t ∈ (unionKeys a.keys b.keys).toFinset,
      convert price t toT (a.amt t) = a.total price toT :=
    (total_eq_sum_over ha (fun t ht => mem_unionKeys.2 (Or.inl ht))).symm
  have h3 : ∑ t ∈ (unionKeys a.keys b.keys).toFinset,
      (if t ∈ b.keys then convert price t toT (b.amt t) else 0) =
        b.total price toT := by
    rw [← Finset.sum_filter]
    have hset : (unionKeys a.keys b.keys).toFinset.filter (fun t => t ∈ b.keys) =
        b.keys.toFinset := by
      ext t
      simp only [Finset.mem_filter, List.mem_toFinset, mem_unionKeys]
      tauto
    rw [hset, List.sum_toFinset _ hb.1]
    rfl
  rw [h2, h3]

/-- Token-wise unchecked subtraction subtracts the totals. -/
theorem total_subU {price : String → ℚ} {toT : String} {a b : Funds}
    (ha : a.WF) (hb : b.WF) :
    (subU a b).total price toT = a.total price toT - b.total price toT := by
  have hU : (subU a b).total price toT =
      ∑ t ∈ (unionKeys a.keys b.keys).toFinset,
        convert price t toT ((subU a b).amt t) :=
    total_eq_sum_over (subU_WF ha hb) (by intro t ht; exact ht)
  rw [hU]
  have hpt : ∀ t ∈ (unionKeys a.keys b.keys).toFinset,
      convert price t toT ((subU a b).amt t) =
        convert price t toT (a.amt t) -
          (if t ∈ b.keys then convert price t toT (b.amt t) else 0) := by
    intro t _
    simp only [subU]
    by_cases hbt : t ∈ b.keys
    · rw [if_pos hbt, if_pos hbt, convert_sub]
    · rw [if_neg hbt, if_neg hbt, sub_zero]
  rw [Finset.sum_congr rfl hpt, Finset.sum_sub_distrib]
  have h2 : ∑ t ∈ (unionKeys a.keys b.keys).toFinset,
      convert price t toT (a.amt t) = a.total price toT :=
    (total_eq_sum_over ha (fun t ht => mem_unionKeys.2 (Or.inl ht))).symm
  have h3 : ∑ t ∈ (unionKeys a.keys b.keys).toFinset,
      (if t ∈ b.keys then convert price t toT (b.amt t) else 0) =
        b.total price toT := by
    rw [← Finset.sum_filter]
    have hset : (unionKeys a.keys b.keys).toFinset.filter (fun t => t ∈ b.keys) =
        b.keys.toFinset := by
      ext t
      simp only [Finset.mem_filter, List.mem_toFinset, mem_unionKeys]
      tauto
    rw [hset, List.sum_toFinset _ hb.1]
    rfl
  rw [h2, h3]

theorem total_empty (price : String → ℚ) (toT : String) :
    empty.total price toT = 0 := rfl

theorem total_zeroKeys (price : String → ℚ) (toT : String) (f : Funds) :
    f.zeroKeys.total price toT = 0 := by
  rw [total]
  refine List.sum_eq_zero ?_
  intro x hx
  rcases List.mem_map.1 hx with ⟨t, ht, rfl⟩
  simp only [zeroKeys] at ht ⊢
  rw [if_pos ht, convert_zero]

/-- Successful checked addition agrees with the unchecked write loop. -/
theorem add_ok_iff {a b : Funds} {c : Funds} :
    add a b = .ok c ↔ negB a b 1 = false ∧ c = addU a b := by
  unfold add
  by_cases h : negB a b 1 = true
  · simp [h]
  · rw [Bool.not_eq_true] at h
    simp [h, eq_comm]

theorem sub_ok_iff {a b : Funds} {c : Funds} :
    sub a b = .ok c ↔ negB a b (-1) = false ∧ c = subU a b := by
  unfold sub
  by_cases h : negB a b (-1) = true
  · simp [h]
  · rw [Bool.not_eq_true] at h
    simp [h, eq_comm]

theorem negB_eq_false_iff {a b : Funds} {k : ℚ} :
    negB a b k = false ↔ ∀ t ∈ b.keys, 0 ≤ a.amt t + k * b.amt t := by
  unfold negB
  rw [← Bool.not_eq_true, List.any_eq_true]
  push_neg
  constructor
  · intro h t ht
    have h2 := h t ht
    rw [Ne, decide_eq_true_eq] at h2
    exact not_lt.1 h2
  · intro h t ht
    rw [Ne, decide_eq_true_eq]
    exact not_lt.2 (h t ht)

/-- Successful checked addition preserves nonnegativity. -/
theorem add_nonneg_pres {a b c : Funds} (ha : a.Nonneg) (h : add a b = .ok c) :
    c.Nonneg := by
  rcases add_ok_iff.1 h with ⟨hneg, rfl⟩
  intro t
  simp only [addU]
  by_cases hbt : t ∈ b.keys
  · rw [if_pos hbt]
    have := negB_eq_false_iff.1 hneg t hbt
    linarith
  · rw [if_neg hbt]
    exact ha t

/-- Successful checked subtraction preserves nonnegativity. -/
theorem sub_nonneg_pres {a b c : Funds} (ha : a.Nonneg) (h : sub a b = .ok c) :
    c.Nonneg := by
  rcases sub_ok_iff.1 h with ⟨hneg, rfl⟩
  intro t
  simp only [subU]
  by_cases hbt : t ∈ b.keys
  · rw [if_pos hbt]
    have := negB_eq_false_iff.1 hneg t hbt
    linarith
  · rw [if_neg hbt]
    exact ha t

end Funds

/-! ## Association-list helpers

Python dicts keyed by public key (or epoch) are modelled as association
lists in insertion order. -/

/-- Dict lookup. -/
def lookupA {κ α : Type} [BEq κ] (l : List (κ × α)) (k : κ) : Option α :=
  (l.find? (fun p => p.1 == k)).map Prod.snd

/-- Dict key-membership test. -/
def memA {κ α : Type} [BEq κ] (l : List (κ × α)) (k : κ) : Bool :=
  (lookupA l k).isSome

/-- Dict write `d[k] = v`: update in place when present, append otherwise. -/
def setA {κ α : Type} [BEq κ] (l : List (κ × α)) (k : κ) (v : α) : List (κ × α) :=
  if (l.find? (fun p => p.1 == k)).isSome
  then l.map (fun p => if p.1 == k then (k, v) else p)
  else l ++ [(k, v)]

/-- Dict delete `del d[k]`. -/
def eraseA {κ α : Type} [BEq κ] (l : List (κ × α)) (k : κ) : List (κ × α) :=
  l.filter (fun p => !(p.1 == k))

/-- Python set insert. -/
def insertS (l : List String) (x : String) : List String :=
  if l.contains x then l else l ++ [x]

/-- Python set discard. -/
def removeS (l : List String) (x : String) : List String :=
  l.filter (fun y => !(y == x))

/-! ## Agreement records (agreement.py) -/

/-- `BrokerAgreement`. -/
structure BrokerAgreement where
  epoch_joined : ℕ
  stake : Funds
  allocated_funds : Funds
  claimed_funds : Funds

/-- `PayerAgreement`; `contributions` maps an epoch to the funds contributed
during that epoch (`defaultdict(Funds)`). -/
structure PayerAgreement where
  contributions : List (ℕ × Funds)
  allocated_funds : Funds
  claimed_funds : Funds

/-- A fresh `PayerAgreement()`. -/
def PayerAgreement.emptyA : PayerAgreement := ⟨[], Funds.empty, Funds.empty⟩

/-- `contributions[epoch]` under defaultdict semantics. -/
def contribGet (c : List (ℕ × Funds)) (e : ℕ) : Funds :=
  (lookupA c e).getD Funds.empty

/-- `WalletAgreement.total_allocated`. -/
def BrokerAgreement.total_allocated (price : String → ℚ) (a : BrokerAgreement) : ℚ :=
  a.allocated_funds.total price "USD"

/-- `WalletAgreement.total_allocated` for payers. -/
def PayerAgreement.total_allocated (price : String → ℚ) (a : PayerAgreement) : ℚ :=
  a.allocated_funds.total price "USD"

/-- `PayerAgreement.total_contributions`: the sum of the totals of every
epoch's contribution. -/
def PayerAgreement.total_contributions (price : String → ℚ) (a : PayerAgreement) : ℚ :=
  (a.contributions.map (fun q => q.2.total price "USD")).sum

/-! ## Whitelist mechanisms (whitelist_mechanism.py) -/

/-- The six mechanism variants. -/
inductive MVariant where
  | noVote | ownerVote | payerVote | equalVote | weightedVote | unanimousVote
deriving DecidableEq

/-- The mutable whitelist state shared by every mechanism: whitelist and
waitlist sets plus the per-subject vote history. -/
structure WlState where
  whitelist : List String
  waitlist : List String
  votes : List (String × List (String × Bool))
deriving DecidableEq

/-- `WhitelistMechanism.add_waitlist`: put the subject on the waitlist and
create an empty vote history on first contact. -/
def WlState.addWaitlist (st : WlState) (pub : String) : WlState :=
  { st with
    waitlist := insertS st.waitlist pub
    votes := if memA st.votes pub then st.votes else st.votes ++ [(pub, [])] }

/-- The recorded vote history of a subject. -/
def WlState.getVotes (st : WlState) (subject : String) : List (String × Bool) :=
  (lookupA st.votes subject).getD []

/-- `votes[subject][voter] = value` (the vote history entry is present in
every path the code reaches this assignment through). -/
def WlState.setVote (st : WlState) (subject voter : String) (v : Bool) : WlState :=
  { st with votes := setA st.votes subject (setA (st.getVotes subject) voter v) }

/-- `WhitelistMechanism._add_whitelist`: waitlist → whitelist. -/
def WlState.addWhitelistMove (st : WlState) (pub : String) : WlState :=
  { st with waitlist := removeS st.waitlist pub
            whitelist := insertS st.whitelist pub }

/-- `WhitelistMechanism._remove_whitelist`: whitelist → waitlist (the vote
history is kept). -/
def WlState.removeWhitelistMove (st : WlState) (pub : String) : WlState :=
  WlState.addWaitlist { st with whitelist := removeS st.whitelist pub } pub

/-- A whitelist mechanism: its variant, its state, and the `min_vote`
threshold used by the Equal/Weighted variants. -/
structure Mechanism where
  variant : MVariant
  st : WlState
  min_vote : ℚ

/-- `in_whitelist`: `NoVote` reports every subject whitelisted, all other
variants consult the whitelist set. -/
def Mechanism.inWhitelist (m : Mechanism) (pub : String) : Bool :=
  match m.variant with
  | .noVote => true
  | _ => m.st.whitelist.contains pub

/-- `in_waitlist`. -/
def Mechanism.inWaitlist (m : Mechanism) (pub : String) : Bool :=
  match m.variant with
  | .noVote => false
  | _ => m.st.waitlist.contains pub

/-- `add_waitlist` on a mechanism (base-class implementation, not overridden
by any variant). -/
def Mechanism.addWaitlist (m : Mechanism) (pub : String) : Mechanism :=
  { m with st := m.st.addWaitlist pub }

/-- `WhitelistMechanism.vote` specialised to the `PayerVote` variant:
the voter must be a current payer; after recording the vote the subject is
whitelisted when any recorded vote is true, and is reverted to the waitlist
when it is whitelisted and not every recorded vote is true. -/
def payerVoteStep (payerKeys : List String) (st : WlState)
    (voter subject : String) (v : Bool) : WlState :=
  if payerKeys.contains voter then
    let st1 := if !(st.whitelist.contains subject) && !(st.waitlist.contains subject)
               then st.addWaitlist subject else st
    let st2 := st1.setVote subject voter v
    if (st2.getVotes subject).any (fun q => q.2) then
      st2.addWhitelistMove subject
    else if !((st2.getVotes subject).all (fun q => q.2)) && st2.whitelist.contains subject then
      st2.removeWhitelistMove subject
    else st2
  else st

/-! ## Wallet and ProposalInverter state (proposal_inverter.py) -/

/-- An actor's `Wallet`. -/
structure Wallet where
  public : String
  funds : Funds
  joined : List String
  paid : List String
  owned : List String

/-- The immutable configuration parameters of a `ProposalInverter`. -/
structure Config where
  allocation_per_epoch : ℚ
  epoch_length : ℚ
  max_brokers : ℚ
  min_contribution : ℚ
  min_epochs : ℚ
  min_horizon : ℕ
  min_payers : ℚ
  min_brokers : ℚ
  min_stake : ℚ

/-- The documented default parameters. -/
def Config.defaults : Config :=
  { allocation_per_epoch := 10, epoch_length := 86400, max_brokers := 5
    min_contribution := 5, min_epochs := 28, min_horizon := 7
    min_payers := 1, min_brokers := 1, min_stake := 5 }

/-- The `ProposalInverter` state. -/
structure Inverter where
  public : String
  owner_address : String
  funds : Funds
  stake : Funds
  cancelled : Bool
  current_epoch : ℕ
  started : Bool
  broker_agreements : List (String × BrokerAgreement)
  payer_agreements : List (String × PayerAgreement)
  broker_whitelist : Mechanism
  payer_whitelist : Mechanism
  cfg : Config

namespace Inverter

/-- `get_number_of_brokers`. -/
def get_number_of_brokers (p : Inverter) : ℕ := p.broker_agreements.length

/-- Python `sum(list_of_funds, start=Funds())`: a left fold of the checked
addition. -/
def foldAdd (l : List Funds) : Except Err Funds :=
  l.foldlM Funds.add Funds.empty

/-- `get_allocated_funds`: total unclaimed allocated funds in native
tokens. -/
def get_allocated_funds (p : Inverter) : Except Err Funds := do
  let ba ← foldAdd (p.broker_agreements.map (fun q => q.2.allocated_funds))
  let pa ← foldAdd (p.payer_agreements.map (fun q => q.2.allocated_funds))
  ba.add pa

/-- `get_total_allocated_funds`: the same quantity converted into USD. -/
def get_total_allocated_funds (price : String → ℚ) (p : Inverter) : ℚ :=
  (p.broker_agreements.map (fun q => q.2.total_allocated price)).sum +
    (p.payer_agreements.map (fun q => q.2.total_allocated price)).sum

/-- `get_horizon` = (total funds − total allocated) / allocation_per_epoch. -/
def get_horizon (price : String → ℚ) (p : Inverter) : ℚ :=
  (p.funds.total price "USD" - p.get_total_allocated_funds price) /
    p.cfg.allocation_per_epoch

/-- `__minimum_conditions_met`. -/
def minimum_conditions_met (price : String → ℚ) (p : Inverter) : Bool :=
  decide ((p.cfg.min_brokers : ℚ) ≤ (p.get_number_of_brokers : ℚ)) &&
  decide ((p.cfg.min_payers : ℚ) ≤ (p.payer_agreements.length : ℚ)) &&
  decide ((p.cfg.min_horizon : ℚ) ≤ p.get_horizon price)

/-- `get_allocation` = allocation_per_epoch × unallocated funds / total
unallocated value. -/
def get_allocation (price : String → ℚ) (p : Inverter) : Except Err Funds := do
  let allocated ← p.get_allocated_funds
  let unallocated ← p.funds.sub allocated
  let m ← unallocated.smul p.cfg.allocation_per_epoch
  m.sdiv (p.funds.total price "USD" - p.get_total_allocated_funds price)

end Inverter

/-- The reason a call was (non-fatally) rejected; mirrors the printed
diagnostic messages. -/
inductive Reason where
  | insufficientFunds | alreadyMember | maxBrokers | belowMinStake
  | cancelled | belowMinContribution | notMember | unauthorized
  | alreadyCancelled
deriving DecidableEq

/-- Outcome of a public operation: success, local rejection with a
diagnosable reason, routing to the waitlist, or a propagating exception. -/
inductive Outcome where
  | ok
  | rejected (r : Reason)
  | waitlisted
  | fatal (e : Err)
deriving DecidableEq

namespace Inverter

/-- `ProposalInverter.join`.  The first admission check raises a
`ValueError` (modelled `fatal`); the remaining checks print and return the
broker unchanged; an approved broker moves its stake into the stake pool;
an unapproved broker is routed to the waitlist. -/
def join (price : String → ℚ) (p : Inverter) (broker : Wallet) (stake : Funds) :
    Wallet × Inverter × Outcome :=
  if Funds.ltF broker.funds stake then
    (broker, p, .fatal .insufficientFunds)
  else if memA p.broker_agreements broker.public then
    (broker, p, .rejected .alreadyMember)
  else if p.cfg.max_brokers < (p.get_number_of_brokers : ℚ) + 1 then
    (broker, p, .rejected .maxBrokers)
  else if stake.total price "USD" < p.cfg.min_stake then
    (broker, p, .rejected .belowMinStake)
  else if p.cancelled then
    (broker, p, .rejected .cancelled)
  else if p.broker_whitelist.inWhitelist broker.public then
    match broker.funds.sub stake with
    | .error e => (broker, p, .fatal e)
    | .ok bf =>
      match p.stake.add stake with
      | .error e => ({ broker with funds := bf }, p, .fatal e)
      | .ok ps =>
        ({ broker with funds := bf, joined := insertS broker.joined p.public },
         { p with stake := ps
                  broker_agreements := setA p.broker_agreements broker.public
                    ⟨p.current_epoch, stake, Funds.empty, Funds.empty⟩ },
         .ok)
  else
    (broker,
     { p with broker_whitelist := p.broker_whitelist.addWaitlist broker.public },
     .waitlisted)

/-- The whitelist-approved tail of `pay`: `payer1` is the payer (with the
proposal freshly added to `paid` when new), `ags` the payer-agreement map
(with a fresh agreement appended when new) and `ag` the payer's agreement.
The contribution is recorded under the current epoch, the payer is debited
and the pool credited; each checked step raises on failure, leaving the
earlier mutations in place. -/
def payCore (p : Inverter) (payer1 : Wallet)
    (ags : List (String × PayerAgreement)) (ag : PayerAgreement)
    (tokens : Funds) : Wallet × Inverter × Outcome :=
  match (contribGet ag.contributions p.current_epoch).add tokens with
  | .error e => (payer1, { p with payer_agreements := ags }, .fatal e)
  | .ok c =>
    let ags1 := setA ags payer1.public
      { ag with contributions := setA ag.contributions p.current_epoch c }
    match payer1.funds.sub tokens with
    | .error e => (payer1, { p with payer_agreements := ags1 }, .fatal e)
    | .ok pf =>
      match p.funds.add tokens with
      | .error e =>
        ({ payer1 with funds := pf }, { p with payer_agreements := ags1 }, .fatal e)
      | .ok pfunds =>
        ({ payer1 with funds := pf },
         { p with payer_agreements := ags1, funds := pfunds }, .ok)

/-- `ProposalInverter.pay`. -/
def pay (price : String → ℚ) (p : Inverter) (payer : Wallet) (tokens : Funds) :
    Wallet × Inverter × Outcome :=
  if Funds.ltF payer.funds tokens then
    (payer, p, .rejected .insufficientFunds)
  else if tokens.total price "USD" < p.cfg.min_contribution then
    (payer, p, .rejected .belowMinContribution)
  else if p.cancelled then
    (payer, p, .rejected .cancelled)
  else if p.payer_whitelist.inWhitelist payer.public then
    (if memA p.payer_agreements payer.public then
      payCore p payer p.payer_agreements
        ((lookupA p.payer_agreements payer.public).getD PayerAgreement.emptyA) tokens
    else
      payCore p { payer with paid := insertS payer.paid p.public }
        (setA p.payer_agreements payer.public PayerAgreement.emptyA)
        PayerAgreement.emptyA tokens)
  else
    (payer,
     { p with payer_whitelist := p.payer_whitelist.addWaitlist payer.public },
     .waitlisted)

/-- `__claim_broker_funds`: per-token item assignments (no negativity
check): zero the allocation, add it to the claim history and to the broker's
wallet, and debit the pool. -/
def claimBroker (p : Inverter) (w : Wallet) : Wallet × Inverter :=
  match lookupA p.broker_agreements w.public with
  | none => (w, p)
  | some ag =>
    let cl := ag.allocated_funds
    let ag1 := { ag with allocated_funds := cl.zeroKeys
                         claimed_funds := Funds.addU ag.claimed_funds cl }
    ({ w with funds := Funds.addU w.funds cl },
     { p with funds := Funds.subU p.funds cl
              broker_agreements := setA p.broker_agreements w.public ag1 })

/-- `__claim_payer_funds`: checked ledger arithmetic, mutation by mutation,
an exception leaving the earlier mutations in place. -/
def claimPayer (p : Inverter) (w : Wallet) : Wallet × Inverter × Option Err :=
  match lookupA p.payer_agreements w.public with
  | none => (w, p, none)
  | some ag =>
    let cl := ag.allocated_funds
    let ags1 := setA p.payer_agreements w.public { ag with allocated_funds := Funds.empty }
    match ag.claimed_funds.add cl with
    | .error e => (w, { p with payer_agreements := ags1 }, some e)
    | .ok cf =>
      let ags2 := setA p.payer_agreements w.public
        { ag with allocated_funds := Funds.empty, claimed_funds := cf }
      match w.funds.add cl with
      | .error e => (w, { p with payer_agreements := ags2 }, some e)
      | .ok wf =>
        match p.funds.sub cl with
        | .error e => ({ w with funds := wf }, { p with payer_agreements := ags2 }, some e)
        | .ok pf =>
          ({ w with funds := wf },
           { p with payer_agreements := ags2, funds := pf }, none)

/-- `ProposalInverter.claim`: broker claim followed by payer claim. -/
def claim (p : Inverter) (w : Wallet) : Wallet × Inverter × Option Err :=
  let bp := p.claimBroker w
  bp.2.claimPayer bp.1

/-- Whether `leave` refunds the stake: the proposal is cancelled or the
broker has stayed at least `min_epochs`. -/
def refundCond (p : Inverter) (ag : BrokerAgreement) : Bool :=
  p.cancelled || decide (p.cfg.min_epochs ≤ (p.current_epoch : ℚ) - (ag.epoch_joined : ℚ))

/-- Shared tail of `leave`: auto-claim, drop the proposal from the broker's
`joined` set, delete the agreement record. -/
def leaveTail (p1 : Inverter) (b1 : Wallet) : Wallet × Inverter × Outcome :=
  match p1.claim b1 with
  | (b2, p2, some e) => (b2, p2, .fatal e)
  | (b2, p2, none) =>
    ({ b2 with joined := removeS b2.joined p1.public },
     { p2 with broker_agreements := eraseA p2.broker_agreements b1.public },
     .ok)

/-- `ProposalInverter.leave`. -/
def leave (p : Inverter) (broker : Wallet) : Wallet × Inverter × Outcome :=
  match lookupA p.broker_agreements broker.public with
  | none => (broker, p, .rejected .notMember)
  | some ag =>
    if refundCond p ag then
      match broker.funds.add ag.stake with
      | .error e => (broker, p, .fatal e)
      | .ok bf =>
        match p.stake.sub ag.stake with
        | .error e => ({ broker with funds := bf }, p, .fatal e)
        | .ok ps =>
          leaveTail { p with stake := ps } { broker with funds := bf }
    else
      match p.funds.add ag.stake with
      | .error e => (broker, p, .fatal e)
      | .ok pf =>
        match p.stake.sub ag.stake with
        | .error e => (broker, { p with funds := pf }, .fatal e)
        | .ok ps =>
          leaveTail { p with funds := pf, stake := ps } broker

/-- The `horizon_funds` accumulation loop of `cancel`:
`horizon_funds += min(allocation, self.funds - allocated_funds - horizon_funds)`
repeated `min_horizon` times, with Python `min` on two `Funds` values. -/
def horizonLoop (allocation fundsL allocated : Funds) :
    ℕ → Funds → Except Err Funds
  | 0, h => .ok h
  | n + 1, h =>
    match fundsL.sub allocated with
    | .error e => .error e
    | .ok x =>
      match x.sub h with
      | .error e => .error e
      | .ok y =>
        match h.add (Funds.pymin allocation y) with
        | .error e => .error e
        | .ok h1 => horizonLoop allocation fundsL allocated n h1

/-- The broker loop of `cancel`:
`agreement.allocated_funds += horizon_funds / number_of_brokers`, stopping
at the first exception (the processed prefix keeps its mutations). -/
def distB (hf : Funds) (nB : ℚ) :
    List (String × BrokerAgreement) → List (String × BrokerAgreement) × Option Err
  | [] => ([], none)
  | (k, ag) :: rest =>
    match hf.sdiv nB with
    | .error e => ((k, ag) :: rest, some e)
    | .ok share =>
      match ag.allocated_funds.add share with
      | .error e => ((k, ag) :: rest, some e)
      | .ok a1 =>
        let r := distB hf nB rest
        ((k, { ag with allocated_funds := a1 }) :: r.1, r.2)

/-- The payer loop of `cancel`:
`agreement.allocated_funds += (funds − allocated − horizon_funds) ×
(funder_funds / funds.total_funds())`. -/
def distP (price : String → ℚ) (fundsL allocated hf : Funds) :
    List (String × PayerAgreement) → List (String × PayerAgreement) × Option Err
  | [] => ([], none)
  | (k, ag) :: rest =>
    match fundsL.sub allocated with
    | .error e => ((k, ag) :: rest, some e)
    | .ok x =>
      match x.sub hf with
      | .error e => ((k, ag) :: rest, some e)
      | .ok rem =>
        let tot := fundsL.total price "USD"
        if tot = 0 then ((k, ag) :: rest, some .zeroDivision)
        else
          match rem.smul (ag.total_contributions price / tot) with
          | .error e => ((k, ag) :: rest, some e)
          | .ok share =>
            match ag.allocated_funds.add share with
            | .error e => ((k, ag) :: rest, some e)
            | .ok a1 =>
              let r := distP price fundsL allocated hf rest
              ((k, { ag with allocated_funds := a1 }) :: r.1, r.2)

/-- `ProposalInverter.cancel`. -/
def cancel (price : String → ℚ) (p : Inverter) (owner_address : String) :
    Inverter × Outcome :=
  if owner_address ≠ p.owner_address then (p, .rejected .unauthorized)
  else if p.cancelled then (p, .rejected .alreadyCancelled)
  else
    match p.get_allocated_funds with
    | .error e => (p, .fatal e)
    | .ok allocated =>
      match p.get_allocation price with
      | .error e => (p, .fatal e)
      | .ok allocation =>
        match horizonLoop allocation p.funds allocated p.cfg.min_horizon Funds.empty with
        | .error e => (p, .fatal e)
        | .ok hf =>
          let rb := distB hf (p.get_number_of_brokers : ℚ) p.broker_agreements
          let p1 := { p with broker_agreements := rb.1 }
          match rb.2 with
          | some e => (p1, .fatal e)
          | none =>
            let rp := distP price p.funds allocated hf p.payer_agreements
            let p2 := { p1 with payer_agreements := rp.1 }
            match rp.2 with
            | some e => (p2, .fatal e)
            | none => ({ p2 with cancelled := true }, .ok)

/-- The per-broker allocation loop of `__allocate_funds` (the share is
computed once, before the loop). -/
def allocLoop (share : Funds) :
    List (String × BrokerAgreement) → List (String × BrokerAgreement) × Option Err
  | [] => ([], none)
  | (k, ag) :: rest =>
    match ag.allocated_funds.add share with
    | .error e => ((k, ag) :: rest, some e)
    | .ok a1 =>
      let r := allocLoop share rest
      ((k, { ag with allocated_funds := a1 }) :: r.1, r.2)

/-- `__allocate_funds`:
`allocation_per_broker = get_allocation() / get_number_of_brokers()`,
then each broker agreement receives the share.  With zero brokers the
division raises `ZeroDivisionError`. -/
def allocate_funds (price : String → ℚ) (p : Inverter) : Inverter × Option Err :=
  match p.get_allocation price with
  | .error e => (p, some e)
  | .ok alloc =>
    match alloc.sdiv (p.get_number_of_brokers : ℚ) with
    | .error e => (p, some e)
    | .ok share =>
      let r := allocLoop share p.broker_agreements
      ({ p with broker_agreements := r.1 }, r.2)

/-- One iteration of the `iter_epoch` loop.  An exception inside the
allocation or auto-cancel propagates, skipping the epoch increment. -/
def step (price : String → ℚ) (p : Inverter) : Inverter × Option Err :=
  if p.cancelled then ({ p with current_epoch := p.current_epoch + 1 }, none)
  else
    let p1 := if p.started then p
              else { p with started := p.minimum_conditions_met price }
    if p1.started then
      if p1.minimum_conditions_met price then
        match p1.allocate_funds price with
        | (p2, some e) => (p2, some e)
        | (p2, none) => ({ p2 with current_epoch := p2.current_epoch + 1 }, none)
      else
        match p1.cancel price p1.owner_address with
        | (p2, .fatal e) => (p2, some e)
        | (p2, _) => ({ p2 with current_epoch := p2.current_epoch + 1 }, none)
    else ({ p1 with current_epoch := p1.current_epoch + 1 }, none)

/-- `iter_epoch(n)`. -/
def iter_epoch (price : String → ℚ) (p : Inverter) : ℕ → Inverter × Option Err
  | 0 => (p, none)
  | n + 1 =>
    match p.step price with
    | (p1, some e) => (p1, some e)
    | (p1, none) => iter_epoch price p1 n

/-- `ProposalInverter.vote_broker` when the broker whitelist is a
`PayerVote` mechanism: the eligible voters are the current payers. -/
def vote_broker_payerVote (p : Inverter) (voter subject : String) (v : Bool) :
    Inverter :=
  { p with broker_whitelist :=
      { p.broker_whitelist with
        st := payerVoteStep (p.payer_agreements.map Prod.fst)
                p.broker_whitelist.st voter subject v } }

end Inverter

/-- `Wallet.deploy`: result of an attempted deployment. -/
inductive DeployResult where
  | insufficient (w : Wallet)
  | raised (e : Err) (w : Wallet)
  | deployed (w : Wallet) (p : Inverter)

/-- `Wallet.deploy(funds, **params)`: refuse (returning `None`) when
`self.funds < funds`; otherwise debit the wallet and construct the
`ProposalInverter` (which registers the owner as whitelisted first payer
with the initial contribution recorded at epoch 0 and evaluates the start
condition).  A ledger exception from the debit or the constructor
propagates to the caller. -/
def Wallet.deploy (price : String → ℚ) (w : Wallet) (funds : Funds)
    (cfg : Config) (newPub : String) (brokerWl payerWl : Mechanism) :
    DeployResult :=
  if Funds.ltF w.funds funds then .insufficient w
  else
    match w.funds.sub funds with
    | .error e => .raised e w
    | .ok wf =>
      let w1 : Wallet := { w with funds := wf }
      let pwl : Mechanism :=
        { payerWl with st :=
            { payerWl.st with whitelist := insertS payerWl.st.whitelist w.public } }
      match Funds.empty.add funds with
      | .error e => .raised e w1
      | .ok c0 =>
        let pa : PayerAgreement := ⟨[(0, c0)], Funds.empty, Funds.empty⟩
        let p0 : Inverter :=
          { public := newPub, owner_address := w.public, funds := funds
            stake := Funds.empty, cancelled := false, current_epoch := 0
            started := false, broker_agreements := []
            payer_agreements := [(w.public, pa)]
            broker_whitelist := brokerWl, payer_whitelist := pwl, cfg := cfg }
        let p1 := { p0 with started := p0.minimum_conditions_met price }
        .deployed { w1 with owned := insertS w1.owned newPub } p1

/-- Well-formedness of a broker agreement's ledgers. -/
def BrokerAgreement.WFa (a : BrokerAgreement) : Prop :=
  a.stake.WF ∧ a.allocated_funds.WF ∧ a.claimed_funds.WF

/-- Well-formedness of a payer agreement's ledgers. -/
def PayerAgreement.WFa (a : PayerAgreement) : Prop :=
  a.allocated_funds.WF ∧ a.claimed_funds.WF

/-- Well-formedness of every ledger a proposal owns. -/
def Inverter.WFI (p : Inverter) : Prop :=
  p.funds.WF ∧ p.stake.WF ∧
    (∀ q ∈ p.broker_agreements, BrokerAgreement.WFa q.2) ∧
    (∀ q ∈ p.payer_agreements, PayerAgreement.WFa q.2)

/-! ## Association-list lemmas -/

theorem lookupA_setA_self {κ α : Type} [BEq κ] [LawfulBEq κ]
    (l : List (κ × α)) (k : κ) (v : α) : lookupA (setA l k v) k = some v := by
  unfold setA
  by_cases h : (l.find? (fun p => p.1 == k)).isSome
  · rw [if_pos h]
    induction l with
    | nil => simp at h
    | cons p l ih =>
      by_cases hp : (p.1 == k) = true
      · simp [lookupA, List.find?, hp]
      · simp only [List.find?_cons, hp] at h
        simp only [List.map_cons, if_neg hp]
        have h2 := ih h
        simp only [lookupA, List.find?_cons, hp] at h2 ⊢
        simpa [hp] using h2
  · rw [if_neg h]
    rw [Option.not_isSome_iff_eq_none] at h
    induction l with
    | nil => simp [lookupA, List.find?]
    | cons p l ih =>
      by_cases hp : (p.1 == k) = true
      · simp [List.find?_cons, hp] at h
      · simp only [List.find?_cons, hp] at h
        have h2 := ih h
        simp only [lookupA, List.cons_append, List.find?_cons, hp] at h2 ⊢
        exact h2

theorem lookupA_setA_ne {κ α : Type} [BEq κ] [LawfulBEq κ]
    (l : List (κ × α)) (k k' : κ) (v : α) (hne : k' ≠ k) :
    lookupA (setA l k v) k' = lookupA l k' := by
  have hbeq : ∀ x : κ, (x == k) = true → (x == k') = false := by
    intro x hx
    rw [beq_iff_eq] at hx
    subst hx
    simpa using fun h => hne (by simpa using congrArg id h.symm)
  unfold setA
  by_cases h : (l.find? (fun p => p.1 == k)).isSome
  · rw [if_pos h]
    clear h
    induction l with
    | nil => simp
    | cons p l ih =>
      by_cases hp : (p.1 == k) = true
      · have hk : (k == k') = false := by
          rcases beq_iff_eq.1 hp with h2
          exact hbeq k (by simp)
        simp only [List.map_cons, if_pos hp, lookupA, List.find?_cons, hk,
          hbeq p.1 hp]
        exact ih
      · simp only [List.map_cons, if_neg hp, lookupA, List.find?_cons]
        by_cases hq : (p.1 == k') = true
        · simp [hq]
        · simp only [hq]
          exact ih
  · rw [if_neg h]
    induction l with
    | nil =>
      have : (k == k') = false := hbeq k (by simp)
      simp [lookupA, this]
    | cons p l ih =>
      simp only [List.find?_cons] at h
      by_cases hp : (p.1 == k) = true
      · simp [hp] at h
      · simp only [hp] at h
        have h2 := ih h
        simp only [lookupA, List.cons_append, List.find?_cons] at h2 ⊢
        by_cases hq : (p.1 == k') = true
        · simp [hq]
        · simp only [hq]
          exact h2

theorem lookupA_eraseA_self {κ α : Type} [BEq κ] [LawfulBEq κ]
    (l : List (κ × α)) (k : κ) : lookupA (eraseA l k) k = none := by
  unfold eraseA lookupA
  rw [Option.map_eq_none', List.find?_eq_none]
  intro p hp
  rcases List.mem_filter.1 hp with ⟨-, h2⟩
  simpa using h2

theorem lookupA_some_mem {κ α : Type} [BEq κ] [LawfulBEq κ]
    {l : List (κ × α)} {k : κ} {v : α} (h : lookupA l k = some v) : (k, v) ∈ l := by
  unfold lookupA at h
  rw [Option.map_eq_some'] at h
  rcases h with ⟨p, hp, rfl⟩
  have hm := List.mem_of_find?_eq_some hp
  have hk := List.find?_some hp
  rw [beq_iff_eq] at hk
  rw [← hk]
  simpa using hm

/-! ## C8: comparison semantics on `Funds` -/

/-- C8: each comparison operator on `Funds` (`<`, `≤`, `==`, `!=`, `≥`, `>`)
quantifies only over the tokens present in the right-hand operand `b`
(absent tokens of `a` read as 0 through `amt`), so tokens held only by `a`
are unconstrained; in particular a ledger holding 999 extra EUR still
compares strictly less than `{USD: 5}`. -/
theorem C8_comparisons_rhs_only :
    (∀ a b : Funds, Funds.ltF a b = true ↔ ∀ t ∈ b.keys, a.amt t < b.amt t) ∧
    (∀ a b : Funds, Funds.leF a b = true ↔ ∀ t ∈ b.keys, a.amt t ≤ b.amt t) ∧
    (∀ a b : Funds, Funds.eqF a b = true ↔ ∀ t ∈ b.keys, a.amt t = b.amt t) ∧
    (∀ a b : Funds, Funds.neF a b = true ↔ ∀ t ∈ b.keys, a.amt t ≠ b.amt t) ∧
    (∀ a b : Funds, Funds.geF a b = true ↔ ∀ t ∈ b.keys, a.amt t ≥ b.amt t) ∧
    (∀ a b : Funds, Funds.gtF a b = true ↔ ∀ t ∈ b.keys, a.amt t > b.amt t) ∧
    Funds.ltF (Funds.mkF [("USD", 0), ("EUR", 999)]) (Funds.mkF [("USD", 5)]) = true ∧
    (Funds.mkF [("USD", 0), ("EUR", 999)]).amt "EUR" = 999 ∧
    "EUR" ∉ (Funds.mkF [("USD", 5)]).keys := by
  refine ⟨?_, ?_, ?_, ?_, ?_, ?_, by with_unfolding_all rfl,
    by with_unfolding_all rfl, by decide⟩
  all_goals
    intro a b
    simp [Funds.ltF, Funds.leF, Funds.eqF, Funds.neF, Funds.geF, Funds.gtF,
      List.all_eq_true]

/-! ## C2: non-negativity preservation and atomic failure -/

/-- Auxiliary: the negativity check succeeds exactly when some right-hand
token drives the result negative. -/
theorem Funds.negB_eq_true_iff {a b : Funds} {k : ℚ} :
    Funds.negB a b k = true ↔ ∃ t ∈ b.keys, a.amt t + k * b.amt t < 0 := by
  unfold Funds.negB
  rw [List.any_eq_true]
  simp

/-- C2: `Funds` arithmetic keeps every per-token amount nonnegative: a
successful `add`/`sub` starting from a nonnegative ledger yields a
nonnegative ledger, the operation fails exactly when some token of the
right-hand operand would drive the result below zero, and a failing
`+=`/`-=` leaves the mutated ledger exactly as it was (the check precedes
every write). -/
theorem C2_nonneg_and_atomic_failure :
    (∀ a b c : Funds, a.Nonneg → Funds.add a b = .ok c → c.Nonneg) ∧
    (∀ a b c : Funds, a.Nonneg → Funds.sub a b = .ok c → c.Nonneg) ∧
    (∀ a b : Funds,
      (∃ e, Funds.add a b = .error e) ↔ ∃ t ∈ b.keys, a.amt t + b.amt t < 0) ∧
    (∀ a b : Funds,
      (∃ e, Funds.sub a b = .error e) ↔ ∃ t ∈ b.keys, a.amt t - b.amt t < 0) ∧
    (∀ (a b : Funds) (e : Err), Funds.add a b = .error e → Funds.iadd a b = a) ∧
    (∀ (a b : Funds) (e : Err), Funds.sub a b = .error e → Funds.isub a b = a) := by
  refine ⟨fun a b c => Funds.add_nonneg_pres, fun a b c => Funds.sub_nonneg_pres,
    ?_, ?_, ?_, ?_⟩
  · intro a b
    unfold Funds.add
    by_cases h : Funds.negB a b 1 = true
    · rw [if_pos h]
      have h2 := Funds.negB_eq_true_iff.1 h
      simp only [one_mul] at h2
      simpa using h2
    · rw [if_neg h, Bool.not_eq_true] at *
      have h2 := Funds.negB_eq_false_iff.1 h
      simp only [one_mul] at h2
      constructor
      · rintro ⟨e, he⟩
        simp [h] at he
      · rintro ⟨t, ht, hlt⟩
        exact absurd (h2 t ht) (by linarith)
  · intro a b
    unfold Funds.sub
    by_cases h : Funds.negB a b (-1) = true
    · rw [if_pos h]
      have h2 := Funds.negB_eq_true_iff.1 h
      constructor
      · intro _
        rcases h2 with ⟨t, ht, hlt⟩
        exact ⟨t, ht, by linarith⟩
      · intro _
        exact ⟨.negativeBalance, rfl⟩
    · rw [if_neg h]
      rw [Bool.not_eq_true] at h
      have h2 := Funds.negB_eq_false_iff.1 h
      constructor
      · rintro ⟨e, he⟩
        cases he
      · rintro ⟨t, ht, hlt⟩
        exact absurd (h2 t ht) (by linarith)
  · intro a b e he
    simp [Funds.iadd, he]
  · intro a b e he
    simp [Funds.isub, he]

/-! ## C10: `Wallet.deploy` with a mixed-token shortfall -/

/-- The C10 wallet: 100 USD, no EUR. -/
def c10Wallet : Wallet := ⟨"owner1", Funds.mkF [("USD", 100)], [], [], []⟩

/-- The C10 deployment request: 100 USD and 10 EUR. -/
def c10Req : Funds := Funds.mkF [("USD", 100), ("EUR", 10)]

/-- A price table valuing every token at 1. -/
def unitPrice : String → ℚ := fun _ => 1

/-- C10: with wallet `{USD: 100}` and request `{USD: 100, EUR: 10}`, the
insufficiency guard `self.funds < funds` is false (it demands a strict
shortfall in every requested token), so `deploy` neither succeeds nor
returns `None`: the debit raises a negative-balance `ValueError` that
propagates to the caller, and the wallet's ledger is left unchanged. -/
theorem C10_deploy_guard_gap :
    Wallet.deploy unitPrice c10Wallet c10Req Config.defaults "prop1"
        ⟨.ownerVote, ⟨[], [], []⟩, 1/2⟩ ⟨.noVote, ⟨[], [], []⟩, 1/2⟩ =
      DeployResult.raised Err.negativeBalance c10Wallet ∧
    Funds.ltF c10Wallet.funds c10Req = false ∧
    c10Wallet.funds.amt "USD" = 100 ∧ c10Wallet.funds.amt "EUR" = 0 ∧
    c10Req.amt "USD" = 100 ∧ c10Req.amt "EUR" = 10 :=
  ⟨by with_unfolding_all rfl, by with_unfolding_all rfl,
   by with_unfolding_all rfl, by with_unfolding_all rfl,
   by with_unfolding_all rfl, by with_unfolding_all rfl⟩

/-! ## C5: PayerVote removal semantics -/

theorem insertS_contains_self (l : List String) (x : String) :
    (insertS l x).contains x = true := by
  unfold insertS
  by_cases h : l.contains x = true
  · rw [if_pos h]
    exact h
  · rw [if_neg h]
    exact List.elem_iff.2 (List.mem_append.2 (Or.inr (List.mem_singleton.2 rfl)))

theorem removeS_contains_self (l : List String) (x : String) :
    (removeS l x).contains x = false := by
  rw [← Bool.not_eq_true]
  intro h
  rcases List.mem_filter.1 (List.elem_iff.1 h) with ⟨-, h2⟩
  simp at h2

theorem getVotes_setVote_self (st : WlState) (subject voter : String) (v : Bool) :
    (st.setVote subject voter v).getVotes subject =
      setA (st.getVotes subject) voter v := by
  unfold WlState.setVote WlState.getVotes
  simp [lookupA_setA_self]

/-- C5 counterexample state: payer `p1` whitelists subject `b1` with a true
vote and then flips the vote to false; payer `p2` never votes. -/
def c5St1 : WlState := payerVoteStep ["p1", "p2"] ⟨[], [], []⟩ "p1" "b1" true

/-- The state after `p1` flips to false. -/
def c5St2 : WlState := payerVoteStep ["p1", "p2"] c5St1 "p1" "b1" false

/-- C5 counterexample: under PayerVote with current payers `p1, p2`, a
single false vote by `p1` (while `p2` has no recorded vote at all, let alone
a false one) moves the whitelisted subject `b1` back to the waitlist — the
claim that *all* current payers must have voted false is violated. -/
theorem C5_counterexample :
    c5St1.whitelist.contains "b1" = true ∧
    c5St2.whitelist.contains "b1" = false ∧
    c5St2.waitlist.contains "b1" = true ∧
    c5St2.getVotes "b1" = [("p1", false)] :=
  ⟨rfl, rfl, rfl, rfl⟩

/-- C5 (amended): under PayerVote, for an eligible (payer) voter and a
whitelisted subject, the subject is reverted to the waitlist exactly when,
after the vote is recorded, no *recorded* vote on the subject is true;
payers who have never voted are not counted, so a single false vote reverts
the subject whenever no true vote remains on record. -/
theorem C5_amended (payerKeys : List String) (st : WlState)
    (voter subject : String) (v : Bool)
    (hv : payerKeys.contains voter = true)
    (hw : st.whitelist.contains subject = true) :
    ((payerVoteStep payerKeys st voter subject v).whitelist.contains subject = false ↔
      ∀ q ∈ (st.setVote subject voter v).getVotes subject, q.2 = false) ∧
    ((payerVoteStep payerKeys st voter subject v).whitelist.contains subject = false →
      (payerVoteStep payerKeys st voter subject v).waitlist.contains subject = true) := by
  have hmem : (voter, v) ∈ (st.setVote subject voter v).getVotes subject := by
    rw [getVotes_setVote_self]
    exact lookupA_some_mem (lookupA_setA_self _ _ _)
  have hcond1 : (!(st.whitelist.contains subject) && !(st.waitlist.contains subject))
      = false := by
    rw [hw]
    rfl
  have hred : payerVoteStep payerKeys st voter subject v =
      (if ((st.setVote subject voter v).getVotes subject).any (fun q => q.2) then
        (st.setVote subject voter v).addWhitelistMove subject
      else if !(((st.setVote subject voter v).getVotes subject).all (fun q => q.2)) &&
          (st.setVote subject voter v).whitelist.contains subject then
        (st.setVote subject voter v).removeWhitelistMove subject
      else (st.setVote subject voter v)) := by
    unfold payerVoteStep
    rw [if_pos hv, hcond1]
    rfl
  by_cases hany : ((st.setVote subject voter v).getVotes subject).any (fun q => q.2) = true
  · rw [hred, if_pos hany]
    rcases List.any_eq_true.1 hany with ⟨q, hq, hq2⟩
    have hwl : ((st.setVote subject voter v).addWhitelistMove subject).whitelist.contains
        subject = true := insertS_contains_self _ _
    constructor
    · rw [hwl]
      constructor
      · intro h
        cases h
      · intro h
        exact absurd (h q hq) (by rw [hq2]; intro h2; cases h2)
    · intro h
      rw [hwl] at h
      cases h
  · have hvfalse : v = false := by
      by_contra hv2
      rw [Bool.not_eq_false] at hv2
      exact hany (List.any_eq_true.2 ⟨(voter, v), hmem, by rw [hv2]⟩)
    have hallf : ∀ q ∈ (st.setVote subject voter v).getVotes subject, q.2 = false := by
      intro q hq
      by_contra h2
      rw [Bool.not_eq_false] at h2
      exact hany (List.any_eq_true.2 ⟨q, hq, h2⟩)
    have hall : (((st.setVote subject voter v).getVotes subject).all (fun q => q.2))
        = false := by
      rw [← Bool.not_eq_true, List.all_eq_true]
      intro h
      have := h (voter, v) hmem
      rw [hvfalse] at this
      cases this
    have hwl2 : (st.setVote subject voter v).whitelist.contains subject = true := hw
    rw [hred, if_neg hany, if_pos (by rw [hall, hwl2]; rfl)]
    have hrm : ((st.setVote subject voter v).removeWhitelistMove subject).whitelist =
        removeS st.whitelist subject := rfl
    constructor
    · rw [hrm, removeS_contains_self]
      exact ⟨fun _ => hallf, fun _ => rfl⟩
    · intro _
      exact insertS_contains_self _ _

/-- Concrete instantiation of `C5_amended`: one payer flips a true vote to
false and the subject leaves the whitelist. -/
theorem C5_amended_witness :
    (payerVoteStep ["p1", "p2"]
        ⟨["b1"], [], [("b1", [("p1", true)])]⟩ "p1" "b1" false).whitelist.contains "b1"
      = false :=
  (C5_amended ["p1", "p2"] ⟨["b1"], [], [("b1", [("p1", true)])]⟩ "p1" "b1" false
    rfl rfl).1.mpr (by decide)

/-! ## C4: error handling of `join` -/

theorem Funds.sub_error_eq {a b : Funds} {e : Err}
    (h : Funds.sub a b = .error e) : e = .negativeBalance := by
  unfold Funds.sub at h
  by_cases h2 : Funds.negB a b (-1) = true
  · rw [if_pos h2] at h
    cases h
    rfl
  · rw [if_neg h2] at h
    cases h

theorem Funds.add_error_eq {a b : Funds} {e : Err}
    (h : Funds.add a b = .error e) : e = .negativeBalance := by
  unfold Funds.add at h
  by_cases h2 : Funds.negB a b 1 = true
  · rw [if_pos h2] at h
    cases h
    rfl
  · rw [if_neg h2] at h
    cases h

/-- A proposal used by the concrete scenarios: one owner payer, permissive
whitelists, default configuration, 500 USD in the pool. -/
def cInverter : Inverter :=
  { public := "prop1", owner_address := "owner1"
    funds := Funds.mkF [("USD", 500)], stake := Funds.empty
    cancelled := false, current_epoch := 0, started := true
    broker_agreements := []
    payer_agreements :=
      [("owner1", ⟨[(0, Funds.mkF [("USD", 500)])], Funds.empty, Funds.empty⟩)]
    broker_whitelist := ⟨.noVote, ⟨[], [], []⟩, 1/2⟩
    payer_whitelist := ⟨.noVote, ⟨[], [], []⟩, 1/2⟩
    cfg := Config.defaults }

/-- A broker wallet holding only 1 USD. -/
def c4Broker : Wallet := ⟨"b1", Funds.mkF [("USD", 1)], [], [], []⟩

/-- A broker wallet holding 100 USD. -/
def c4Broker2 : Wallet := ⟨"b2", Funds.mkF [("USD", 100)], [], [], []⟩

/-- C4 counterexample: a broker with 1 USD attempting to stake 10 USD is
not rejected non-fatally — `join`'s first guard raises a `ValueError`
(modelled as the `fatal` outcome), an unrecoverable fault surfacing to the
caller, contradicting the claim that every failed admission check
(including insufficient funds) is non-fatal. -/
theorem C4_counterexample :
    (Inverter.join unitPrice cInverter c4Broker (Funds.mkF [("USD", 10)])).2.2 =
      Outcome.fatal Err.insufficientFunds := by
  with_unfolding_all rfl

/-- C4 (amended): a `join` that fails an admission check other than the
insufficient-funds guard is non-fatal — the broker wallet and the proposal
are returned unchanged with a diagnosable rejection reason — and a broker
routed to the waitlist is likewise returned unchanged; the
insufficient-funds check instead raises a `ValueError` (a fatal outcome,
raised exactly when `broker.funds < stake`), though the broker wallet is
still unmutated at that point. -/
theorem C4_amended (price : String → ℚ) (p : Inverter) (b : Wallet) (s : Funds) :
    (∀ r, (Inverter.join price p b s).2.2 = .rejected r →
      (Inverter.join price p b s).1 = b ∧ (Inverter.join price p b s).2.1 = p) ∧
    ((Inverter.join price p b s).2.2 = .fatal .insufficientFunds ↔
      Funds.ltF b.funds s = true) ∧
    ((Inverter.join price p b s).2.2 = .fatal .insufficientFunds →
      (Inverter.join price p b s).1 = b) ∧
    ((Inverter.join price p b s).2.2 = .waitlisted →
      (Inverter.join price p b s).1 = b) := by
  unfold Inverter.join
  by_cases h1 : Funds.ltF b.funds s = true
  · rw [if_pos h1]
    exact ⟨fun r h => Outcome.noConfusion h, ⟨fun _ => h1, fun _ => rfl⟩,
      fun _ => rfl, fun h => Outcome.noConfusion h⟩
  · rw [if_neg h1]
    by_cases h2 : memA p.broker_agreements b.public = true
    · rw [if_pos h2]
      exact ⟨fun r h => ⟨rfl, rfl⟩, ⟨fun h => Outcome.noConfusion h, fun h => absurd h h1⟩,
        fun h => Outcome.noConfusion h, fun h => Outcome.noConfusion h⟩
    · rw [if_neg h2]
      by_cases h3 : p.cfg.max_brokers < (p.get_number_of_brokers : ℚ) + 1
      · rw [if_pos h3]
        exact ⟨fun r h => ⟨rfl, rfl⟩, ⟨fun h => Outcome.noConfusion h, fun h => absurd h h1⟩,
          fun h => Outcome.noConfusion h, fun h => Outcome.noConfusion h⟩
      · rw [if_neg h3]
        by_cases h4 : s.total price "USD" < p.cfg.min_stake
        · rw [if_pos h4]
          exact ⟨fun r h => ⟨rfl, rfl⟩, ⟨fun h => Outcome.noConfusion h, fun h => absurd h h1⟩,
            fun h => Outcome.noConfusion h, fun h => Outcome.noConfusion h⟩
        · rw [if_neg h4]
          by_cases h5 : p.cancelled = true
          · rw [if_pos h5]
            exact ⟨fun r h => ⟨rfl, rfl⟩, ⟨fun h => Outcome.noConfusion h, fun h => absurd h h1⟩,
              fun h => Outcome.noConfusion h, fun h => Outcome.noConfusion h⟩
          · rw [if_neg h5]
            by_cases h6 : p.broker_whitelist.inWhitelist b.public = true
            · rw [if_pos h6]
              rcases hsub : Funds.sub b.funds s with e | bf
              · refine ⟨fun r h => Outcome.noConfusion h,
                  ⟨fun h => ?_, fun h => absurd h h1⟩,
                  fun _ => rfl, fun h => Outcome.noConfusion h⟩
                injection h with h'
                rw [Funds.sub_error_eq hsub] at h'
                exact Err.noConfusion h'
              · rcases hadd : Funds.add p.stake s with e | ps
                · refine ⟨fun r h => Outcome.noConfusion h,
                    ⟨fun h => ?_, fun h => absurd h h1⟩,
                    fun h => ?_, fun h => Outcome.noConfusion h⟩
                  · injection h with h'
                    rw [Funds.add_error_eq hadd] at h'
                    exact Err.noConfusion h'
                  · injection h with h'
                    rw [Funds.add_error_eq hadd] at h'
                    exact Err.noConfusion h'
                · exact ⟨fun r h => Outcome.noConfusion h,
                    ⟨fun h => Outcome.noConfusion h, fun h => absurd h h1⟩,
                    fun h => Outcome.noConfusion h, fun h => Outcome.noConfusion h⟩
            · rw [if_neg h6]
              exact ⟨fun r h => Outcome.noConfusion h,
                ⟨fun h => Outcome.noConfusion h, fun h => absurd h h1⟩,
                fun h => Outcome.noConfusion h, fun _ => rfl⟩

/-- Concrete instantiation of `C4_amended`: a 1-USD stake is below
`min_stake = 5` and the broker wallet and proposal are returned unchanged. -/
theorem C4_amended_witness :
    (Inverter.join unitPrice cInverter c4Broker2 (Funds.mkF [("USD", 1)])).1 =
        c4Broker2 ∧
    (Inverter.join unitPrice cInverter c4Broker2 (Funds.mkF [("USD", 1)])).2.1 =
        cInverter :=
  (C4_amended unitPrice cInverter c4Broker2 (Funds.mkF [("USD", 1)])).1
    Reason.belowMinStake (by with_unfolding_all rfl)

/-! ## C6: the allocation branch of `iter_epoch` -/

theorem lookupA_cons {κ α : Type} [BEq κ] (k' : κ) (x : α) (l : List (κ × α)) (k : κ) :
    lookupA ((k', x) :: l) k = if (k' == k) = true then some x else lookupA l k := by
  unfold lookupA
  rw [List.find?_cons]
  by_cases h : (k' == k) = true
  · simp [h]
  · simp [h]

theorem Funds.sdiv_zero (a : Funds) : Funds.sdiv a 0 = .error .zeroDivision := by
  unfold Funds.sdiv
  rw [if_neg (lt_irrefl 0), if_pos rfl]

/-- When the per-broker allocation loop completes without an exception,
every broker agreement received exactly the computed share. -/
theorem Inverter.allocLoop_none_lookup (share : Funds) :
    ∀ l : List (String × BrokerAgreement), (Inverter.allocLoop share l).2 = none →
      ∀ k ag, lookupA l k = some ag →
        lookupA (Inverter.allocLoop share l).1 k =
          some { ag with allocated_funds := Funds.addU ag.allocated_funds share } := by
  intro l
  induction l with
  | nil =>
    intro _ k ag hk
    simp [lookupA] at hk
  | cons q rest ih =>
    rcases q with ⟨k', ag'⟩
    intro h k ag hk
    rcases hadd : Funds.add ag'.allocated_funds share with e | a1
    · unfold Inverter.allocLoop at h
      rw [hadd] at h
      exact absurd h (by simp)
    · have hsnd : (Inverter.allocLoop share ((k', ag') :: rest)).2 = (Inverter.allocLoop share rest).2 := by
        conv_lhs => unfold Inverter.allocLoop
        rw [hadd]
      have hfst : (Inverter.allocLoop share ((k', ag') :: rest)).1 =
          (k', { ag' with allocated_funds := a1 }) :: (Inverter.allocLoop share rest).1 := by
        conv_lhs => unfold Inverter.allocLoop
        rw [hadd]
      rw [hsnd] at h
      rw [hfst, lookupA_cons]
      rw [lookupA_cons] at hk
      by_cases hkk : (k' == k) = true
      · rw [if_pos hkk] at hk ⊢
        injection hk with hk2
        subst hk2
        rw [(Funds.add_ok_iff.1 hadd).2]
      · rw [if_neg hkk] at hk ⊢
        exact ih h k ag hk

/-- The C6 proposal: zero brokers, `min_brokers = 0`, otherwise like
`cInverter`, so the minimum conditions hold and the allocation branch is
entered with no broker to divide by. -/
def c6Inverter : Inverter :=
  { cInverter with cfg := { Config.defaults with min_brokers := 0 } }

/-- C6 counterexample: with `min_brokers = 0` and zero brokers the epoch
iteration takes the allocation branch (the minimum conditions hold) and
the per-broker division raises `ZeroDivisionError` instead of skipping the
allocation; the epoch counter is not even incremented because the
exception propagates out of `iter_epoch`. -/
theorem C6_counterexample :
    c6Inverter.get_number_of_brokers = 0 ∧
    c6Inverter.cancelled = false ∧ c6Inverter.started = true ∧
    c6Inverter.minimum_conditions_met unitPrice = true ∧
    (Inverter.step unitPrice c6Inverter).2 = some Err.zeroDivision ∧
    (Inverter.step unitPrice c6Inverter).1.current_epoch = 0 :=
  ⟨rfl, rfl, rfl, by with_unfolding_all rfl, by with_unfolding_all rfl,
   by with_unfolding_all rfl⟩

/-- C6 (amended): in the allocation branch of `iter_epoch`, when at least
one broker is present each broker agreement's `allocated_funds` grows by
the share `get_allocation() / number_of_brokers`; there is no explicit
zero-broker guard in the allocation step itself — zero brokers reach it
only when `min_brokers ≤ 0`, in which case the division raises
`ZeroDivisionError`; when `min_brokers ≥ 1` the minimum conditions
guarantee the branch always has a broker. -/
theorem C6_amended (price : String → ℚ) (p : Inverter)
    (hc : p.cancelled = false) (hs : p.started = true)
    (hm : p.minimum_conditions_met price = true) :
    ((1 : ℚ) ≤ p.cfg.min_brokers → 1 ≤ p.get_number_of_brokers) ∧
    (∀ alloc, p.get_allocation price = .ok alloc →
      (p.get_number_of_brokers = 0 →
        (Inverter.step price p).2 = some Err.zeroDivision ∧
        (Inverter.step price p).1.current_epoch = p.current_epoch) ∧
      (∀ share, Funds.sdiv alloc (p.get_number_of_brokers : ℚ) = .ok share →
        (Inverter.step price p).1.broker_agreements =
          (Inverter.allocLoop share p.broker_agreements).1 ∧
        ((Inverter.allocLoop share p.broker_agreements).2 = none →
          ∀ k ag, lookupA p.broker_agreements k = some ag →
            lookupA (Inverter.allocLoop share p.broker_agreements).1 k =
              some { ag with
                allocated_funds := Funds.addU ag.allocated_funds share }))) := by
  have hmb : (p.cfg.min_brokers : ℚ) ≤ (p.get_number_of_brokers : ℚ) := by
    have hm' := hm
    simp only [Inverter.minimum_conditions_met, Bool.and_eq_true,
      decide_eq_true_eq] at hm'
    exact hm'.1.1
  have hstep : Inverter.step price p =
      (match p.allocate_funds price with
       | (p2, some e) => (p2, some e)
       | (p2, none) => ({ p2 with current_epoch := p2.current_epoch + 1 }, none)) := by
    unfold Inverter.step
    rw [if_neg (by rw [hc]; exact Bool.false_ne_true), if_pos hs, if_pos hs, if_pos hm]
  refine ⟨fun h1 => ?_, fun alloc halloc => ?_⟩
  · exact_mod_cast le_trans h1 hmb
  have h1 : p.allocate_funds price =
      (match Funds.sdiv alloc (p.get_number_of_brokers : ℚ) with
       | .error e => (p, some e)
       | .ok share =>
         ({ p with broker_agreements := (Inverter.allocLoop share p.broker_agreements).1 },
          (Inverter.allocLoop share p.broker_agreements).2)) := by
    unfold Inverter.allocate_funds
    rw [halloc]
  refine ⟨fun hzero => ?_, fun share hshare => ?_⟩
  · have hcast : ((p.get_number_of_brokers : ℕ) : ℚ) = 0 := by
      rw [hzero]
      norm_num
    rw [hcast, Funds.sdiv_zero] at h1
    have h2 : p.allocate_funds price = (p, some Err.zeroDivision) := h1
    rw [hstep, h2]
    exact ⟨rfl, rfl⟩
  · rw [hshare] at h1
    have h2 : p.allocate_funds price =
        ({ p with broker_agreements := (Inverter.allocLoop share p.broker_agreements).1 },
         (Inverter.allocLoop share p.broker_agreements).2) := h1
    rcases hloop : (Inverter.allocLoop share p.broker_agreements).2 with _ | e
    · rw [hloop] at h2
      rw [hstep, h2]
      exact ⟨rfl, fun _ => Inverter.allocLoop_none_lookup share p.broker_agreements hloop⟩
    · rw [hloop] at h2
      rw [hstep, h2]
      exact ⟨rfl, fun h3 => absurd h3 (by simp)⟩

/-- One staked broker used to instantiate `C6_amended`. -/
def c6wBrokers : List (String × BrokerAgreement) :=
  [("b1", ⟨0, Funds.mkF [("USD", 50)], Funds.empty, Funds.empty⟩)]

/-- `cInverter` with that broker. -/
def c6wInverter : Inverter := { cInverter with broker_agreements := c6wBrokers }

/-- The epoch allocation computed for `c6wInverter`. -/
def c6wAlloc : Funds :=
  ((c6wInverter.get_allocation unitPrice).toOption).getD Funds.empty

/-- The per-broker share for `c6wInverter`. -/
def c6wShare : Funds :=
  ((Funds.sdiv c6wAlloc (c6wInverter.get_number_of_brokers : ℚ)).toOption).getD
    Funds.empty

/-- Concrete instantiation of `C6_amended`: with one broker present the
allocation share is added to that broker's agreement. -/
theorem C6_amended_witness :
    lookupA (Inverter.allocLoop c6wShare c6wBrokers).1 "b1" =
      some { epoch_joined := 0, stake := Funds.mkF [("USD", 50)]
             allocated_funds := Funds.addU Funds.empty c6wShare
             claimed_funds := Funds.empty } :=
  (((C6_amended unitPrice c6wInverter rfl rfl (by with_unfolding_all rfl)).2
      c6wAlloc (by with_unfolding_all rfl)).2
      c6wShare (by with_unfolding_all rfl)).2
      (by with_unfolding_all rfl) "b1"
      ⟨0, Funds.mkF [("USD", 50)], Funds.empty, Funds.empty⟩
      (by with_unfolding_all rfl)

/-! ## Case equations for `claim` -/

theorem Funds.addU_amt (a b : Funds) (t : String) :
    (Funds.addU a b).amt t = if t ∈ b.keys then a.amt t + b.amt t else a.amt t := rfl

theorem Funds.subU_amt (a b : Funds) (t : String) :
    (Funds.subU a b).amt t = if t ∈ b.keys then a.amt t - b.amt t else a.amt t := rfl

theorem Funds.zeroKeys_amt (f : Funds) (t : String) :
    f.zeroKeys.amt t = if t ∈ f.keys then 0 else f.amt t := rfl

theorem Funds.zeroKeys_keys (f : Funds) : f.zeroKeys.keys = f.keys := rfl

/-- Adding a ledger whose amounts vanish on its keys to a ledger that is
nonnegative there always succeeds. -/
theorem Funds.add_ok_of_zero (x cl : Funds)
    (hz : ∀ t ∈ cl.keys, cl.amt t = 0) (hx : ∀ t ∈ cl.keys, 0 ≤ x.amt t) :
    Funds.add x cl = .ok (Funds.addU x cl) := by
  unfold Funds.add
  rw [if_neg ?_]
  rw [Bool.not_eq_true, Funds.negB_eq_false_iff]
  intro t ht
  rw [hz t ht]
  simpa using hx t ht

/-- Subtracting such a ledger likewise succeeds. -/
theorem Funds.sub_ok_of_zero (x cl : Funds)
    (hz : ∀ t ∈ cl.keys, cl.amt t = 0) (hx : ∀ t ∈ cl.keys, 0 ≤ x.amt t) :
    Funds.sub x cl = .ok (Funds.subU x cl) := by
  unfold Funds.sub
  rw [if_neg ?_]
  rw [Bool.not_eq_true, Funds.negB_eq_false_iff]
  intro t ht
  rw [hz t ht]
  simpa using hx t ht

theorem Funds.addU_amt_of_zero (x cl : Funds)
    (hz : ∀ t ∈ cl.keys, cl.amt t = 0) (t : String) :
    (Funds.addU x cl).amt t = x.amt t := by
  rw [Funds.addU_amt]
  by_cases ht : t ∈ cl.keys
  · rw [if_pos ht, hz t ht, add_zero]
  · rw [if_neg ht]

theorem Funds.subU_amt_of_zero (x cl : Funds)
    (hz : ∀ t ∈ cl.keys, cl.amt t = 0) (t : String) :
    (Funds.subU x cl).amt t = x.amt t := by
  rw [Funds.subU_amt]
  by_cases ht : t ∈ cl.keys
  · rw [if_pos ht, hz t ht, sub_zero]
  · rw [if_neg ht]

theorem Funds.zeroKeys_zero (f : Funds) :
    ∀ t ∈ f.zeroKeys.keys, f.zeroKeys.amt t = 0 := by
  intro t ht
  rw [Funds.zeroKeys_keys] at ht
  rw [Funds.zeroKeys_amt, if_pos ht]

theorem Inverter.claimBroker_none {p : Inverter} {w : Wallet}
    (h : lookupA p.broker_agreements w.public = none) :
    p.claimBroker w = (w, p) := by
  unfold Inverter.claimBroker
  rw [h]

theorem Inverter.claimBroker_some {p : Inverter} {w : Wallet} {ag : BrokerAgreement}
    (h : lookupA p.broker_agreements w.public = some ag) :
    p.claimBroker w =
      ({ w with funds := Funds.addU w.funds ag.allocated_funds },
       { p with funds := Funds.subU p.funds ag.allocated_funds
                broker_agreements := setA p.broker_agreements w.public
                  { ag with allocated_funds := ag.allocated_funds.zeroKeys
                            claimed_funds :=
                              Funds.addU ag.claimed_funds ag.allocated_funds } }) := by
  unfold Inverter.claimBroker
  rw [h]

theorem Inverter.claimPayer_none {p : Inverter} {w : Wallet}
    (h : lookupA p.payer_agreements w.public = none) :
    p.claimPayer w = (w, p, none) := by
  unfold Inverter.claimPayer
  rw [h]

theorem Inverter.claimPayer_some_ok {p : Inverter} {w : Wallet} {ag : PayerAgreement}
    {cf wf pf : Funds}
    (h : lookupA p.payer_agreements w.public = some ag)
    (h1 : Funds.add ag.claimed_funds ag.allocated_funds = .ok cf)
    (h2 : Funds.add w.funds ag.allocated_funds = .ok wf)
    (h3 : Funds.sub p.funds ag.allocated_funds = .ok pf) :
    p.claimPayer w =
      ({ w with funds := wf },
       { p with funds := pf
                payer_agreements := setA p.payer_agreements w.public
                  { ag with allocated_funds := Funds.empty, claimed_funds := cf } },
       none) := by
  unfold Inverter.claimPayer
  simp only [h, h1, h2, h3]

theorem Inverter.claimPayer_err1 {p : Inverter} {w : Wallet} {ag : PayerAgreement}
    {e : Err}
    (h : lookupA p.payer_agreements w.public = some ag)
    (h1 : Funds.add ag.claimed_funds ag.allocated_funds = .error e) :
    (p.claimPayer w).2.2 = some e := by
  unfold Inverter.claimPayer
  simp only [h, h1]

theorem Inverter.claimPayer_err2 {p : Inverter} {w : Wallet} {ag : PayerAgreement}
    {cf : Funds} {e : Err}
    (h : lookupA p.payer_agreements w.public = some ag)
    (h1 : Funds.add ag.claimed_funds ag.allocated_funds = .ok cf)
    (h2 : Funds.add w.funds ag.allocated_funds = .error e) :
    (p.claimPayer w).2.2 = some e := by
  unfold Inverter.claimPayer
  simp only [h, h1, h2]

theorem Inverter.claimPayer_err3 {p : Inverter} {w : Wallet} {ag : PayerAgreement}
    {cf wf : Funds} {e : Err}
    (h : lookupA p.payer_agreements w.public = some ag)
    (h1 : Funds.add ag.claimed_funds ag.allocated_funds = .ok cf)
    (h2 : Funds.add w.funds ag.allocated_funds = .ok wf)
    (h3 : Funds.sub p.funds ag.allocated_funds = .error e) :
    (p.claimPayer w).2.2 = some e := by
  unfold Inverter.claimPayer
  simp only [h, h1, h2, h3]

/-- Master no-op lemma for `claim`: when every allocation the wallet can
claim is zero on its keys (and the ledgers the checked payer-path
arithmetic touches are nonnegative there), the claim completes without an
exception and leaves the wallet balance pointwise unchanged. -/
theorem Inverter.claim_zero_noop (p' : Inverter) (w' : Wallet)
    (hb : ∀ ag, lookupA p'.broker_agreements w'.public = some ag →
      ∀ t ∈ ag.allocated_funds.keys, ag.allocated_funds.amt t = 0)
    (hp : ∀ ag, lookupA p'.payer_agreements w'.public = some ag →
      (∀ t ∈ ag.allocated_funds.keys, ag.allocated_funds.amt t = 0) ∧
      (∀ t ∈ ag.allocated_funds.keys, 0 ≤ ag.claimed_funds.amt t) ∧
      (∀ t ∈ ag.allocated_funds.keys, 0 ≤ w'.funds.amt t) ∧
      (∀ t ∈ ag.allocated_funds.keys, 0 ≤ p'.funds.amt t)) :
    (p'.claim w').2.2 = none ∧
    ∀ t, (p'.claim w').1.funds.amt t = w'.funds.amt t := by
  rcases hB : lookupA p'.broker_agreements w'.public with _ | ag
  · have hcb := Inverter.claimBroker_none hB
    rcases hP : lookupA p'.payer_agreements w'.public with _ | pag
    · have hclaim : p'.claim w' = (w', p', none) := by
        unfold Inverter.claim
        rw [hcb]
        exact Inverter.claimPayer_none hP
      rw [hclaim]
      exact ⟨rfl, fun t => rfl⟩
    · rcases hp pag hP with ⟨hz, hcl, hwn, hfn⟩
      have h1 := Funds.add_ok_of_zero pag.claimed_funds pag.allocated_funds hz hcl
      have h2 := Funds.add_ok_of_zero w'.funds pag.allocated_funds hz hwn
      have h3 := Funds.sub_ok_of_zero p'.funds pag.allocated_funds hz hfn
      have hclaim : p'.claim w' =
          ({ w' with funds := Funds.addU w'.funds pag.allocated_funds },
           { p' with funds := Funds.subU p'.funds pag.allocated_funds
                     payer_agreements := setA p'.payer_agreements w'.public
                       { pag with allocated_funds := Funds.empty
                                  claimed_funds :=
                                    Funds.addU pag.claimed_funds pag.allocated_funds } },
           none) := by
        unfold Inverter.claim
        rw [hcb]
        exact Inverter.claimPayer_some_ok hP h1 h2 h3
      rw [hclaim]
      exact ⟨rfl, fun t => Funds.addU_amt_of_zero _ _ hz t⟩
  · have hcb := Inverter.claimBroker_some hB
    have hzb := hb ag hB
    rcases hP : lookupA p'.payer_agreements w'.public with _ | pag
    · have hclaim : p'.claim w' =
          ({ w' with funds := Funds.addU w'.funds ag.allocated_funds },
           { p' with funds := Funds.subU p'.funds ag.allocated_funds
                     broker_agreements := setA p'.broker_agreements w'.public
                       { ag with allocated_funds := ag.allocated_funds.zeroKeys
                                 claimed_funds :=
                                   Funds.addU ag.claimed_funds ag.allocated_funds } },
           none) := by
        unfold Inverter.claim
        rw [hcb]
        exact Inverter.claimPayer_none hP
      rw [hclaim]
      exact ⟨rfl, fun t => Funds.addU_amt_of_zero _ _ hzb t⟩
    · rcases hp pag hP with ⟨hz, hcl, hwn, hfn⟩
      have hw1 : ∀ t ∈ pag.allocated_funds.keys,
          0 ≤ (Funds.addU w'.funds ag.allocated_funds).amt t := by
        intro t ht
        rw [Funds.addU_amt_of_zero _ _ hzb]
        exact hwn t ht
      have hf1 : ∀ t ∈ pag.allocated_funds.keys,
          0 ≤ (Funds.subU p'.funds ag.allocated_funds).amt t := by
        intro t ht
        rw [Funds.subU_amt_of_zero _ _ hzb]
        exact hfn t ht
      have h1 := Funds.add_ok_of_zero pag.claimed_funds pag.allocated_funds hz hcl
      have h2 := Funds.add_ok_of_zero (Funds.addU w'.funds ag.allocated_funds)
        pag.allocated_funds hz hw1
      have h3 := Funds.sub_ok_of_zero (Funds.subU p'.funds ag.allocated_funds)
        pag.allocated_funds hz hf1
      have hclaim : p'.claim w' =
          ({ w' with funds :=
              Funds.addU (Funds.addU w'.funds ag.allocated_funds) pag.allocated_funds },
           { p' with funds :=
              Funds.subU (Funds.subU p'.funds ag.allocated_funds) pag.allocated_funds
                     broker_agreements := setA p'.broker_agreements w'.public
                       { ag with allocated_funds := ag.allocated_funds.zeroKeys
                                 claimed_funds :=
                                   Funds.addU ag.claimed_funds ag.allocated_funds }
                     payer_agreements := setA p'.payer_agreements w'.public
                       { pag with allocated_funds := Funds.empty
                                  claimed_funds :=
                                    Funds.addU pag.claimed_funds pag.allocated_funds } },
           none) := by
        unfold Inverter.claim
        rw [hcb]
        exact Inverter.claimPayer_some_ok hP h1 h2 h3
      rw [hclaim]
      refine ⟨rfl, fun t => ?_⟩
      rw [Funds.addU_amt_of_zero _ _ hz t, Funds.addU_amt_of_zero _ _ hzb t]

theorem Funds.empty_keys : Funds.empty.keys = [] := rfl

theorem Funds.mkF_nonneg (l : List (String × ℚ)) (h : ∀ q ∈ l, 0 ≤ q.2) :
    (Funds.mkF l).Nonneg := by
  intro t
  rcases hf : l.find? (fun p => p.1 = t) with _ | q
  · show 0 ≤ (((l.find? (fun p => p.1 = t)).map Prod.snd).getD 0)
    rw [hf]
    simp
  · show 0 ≤ (((l.find? (fun p => p.1 = t)).map Prod.snd).getD 0)
    rw [hf]
    simp only [Option.map_some', Option.getD_some]
    exact h q (List.mem_of_find?_eq_some hf)

/-- C7: `claim` is idempotent on the wallet balance — when a first claim
completes without a ledger exception, immediately claiming again (with no
intervening allocation) succeeds and leaves the wallet balance pointwise
unchanged; moreover claiming with zero allocated funds (on a state whose
touched ledgers are nonnegative) is a safe no-op on the wallet balance. -/
theorem C7_claim_idempotent (p : Inverter) (w : Wallet) :
    ((p.claim w).2.2 = none →
      ((p.claim w).2.1.claim (p.claim w).1).2.2 = none ∧
      ∀ t, ((p.claim w).2.1.claim (p.claim w).1).1.funds.amt t =
        (p.claim w).1.funds.amt t) ∧
    ((∀ ag, lookupA p.broker_agreements w.public = some ag →
        ∀ t, ag.allocated_funds.amt t = 0) →
      (∀ ag, lookupA p.payer_agreements w.public = some ag →
        (∀ t, ag.allocated_funds.amt t = 0) ∧ ag.claimed_funds.Nonneg) →
      w.funds.Nonneg → p.funds.Nonneg →
      (p.claim w).2.2 = none ∧
      ∀ t, (p.claim w).1.funds.amt t = w.funds.amt t) := by
  constructor
  · intro hok
    rcases hB : lookupA p.broker_agreements w.public with _ | ag
    · rcases hP : lookupA p.payer_agreements w.public with _ | pag
      · have hclaim1 : p.claim w = (w, p, none) := by
          unfold Inverter.claim
          rw [Inverter.claimBroker_none hB]
          exact Inverter.claimPayer_none hP
        rw [hclaim1]
        refine Inverter.claim_zero_noop p w ?_ ?_
        · intro ag' heq
          rw [hB] at heq
          cases heq
        · intro ag' heq
          rw [hP] at heq
          cases heq
      · rcases h1 : Funds.add pag.claimed_funds pag.allocated_funds with e | cf
        · exfalso
          have hbad : (p.claim w).2.2 = some e := by
            unfold Inverter.claim
            rw [Inverter.claimBroker_none hB]
            exact Inverter.claimPayer_err1 hP h1
          rw [hbad] at hok
          cases hok
        rcases h2 : Funds.add w.funds pag.allocated_funds with e | wf
        · exfalso
          have hbad : (p.claim w).2.2 = some e := by
            unfold Inverter.claim
            rw [Inverter.claimBroker_none hB]
            exact Inverter.claimPayer_err2 hP h1 h2
          rw [hbad] at hok
          cases hok
        rcases h3 : Funds.sub p.funds pag.allocated_funds with e | pf
        · exfalso
          have hbad : (p.claim w).2.2 = some e := by
            unfold Inverter.claim
            rw [Inverter.claimBroker_none hB]
            exact Inverter.claimPayer_err3 hP h1 h2 h3
          rw [hbad] at hok
          cases hok
        have hclaim1 : p.claim w =
            ({ w with funds := wf },
             { p with funds := pf
                      payer_agreements := setA p.payer_agreements w.public
                        { pag with allocated_funds := Funds.empty
                                   claimed_funds := cf } },
             none) := by
          unfold Inverter.claim
          rw [Inverter.claimBroker_none hB]
          exact Inverter.claimPayer_some_ok hP h1 h2 h3
        rw [hclaim1]
        refine Inverter.claim_zero_noop _ _ ?_ ?_
        · intro ag' heq
          have heq2 : lookupA p.broker_agreements w.public = some ag' := heq
          rw [hB] at heq2
          cases heq2
        · intro ag' heq
          have heq2 : lookupA (setA p.payer_agreements w.public
              { pag with allocated_funds := Funds.empty, claimed_funds := cf })
              w.public = some ag' := heq
          rw [lookupA_setA_self] at heq2
          injection heq2 with heq3
          subst heq3
          refine ⟨?_, ?_, ?_, ?_⟩ <;>
            · intro t ht
              exact absurd ht (List.not_mem_nil t)
    · rcases hP : lookupA p.payer_agreements w.public with _ | pag
      · have hclaim1 : p.claim w =
            ({ w with funds := Funds.addU w.funds ag.allocated_funds },
             { p with funds := Funds.subU p.funds ag.allocated_funds
                      broker_agreements := setA p.broker_agreements w.public
                        { ag with allocated_funds := ag.allocated_funds.zeroKeys
                                  claimed_funds :=
                                    Funds.addU ag.claimed_funds ag.allocated_funds } },
             none) := by
          unfold Inverter.claim
          rw [Inverter.claimBroker_some hB]
          exact Inverter.claimPayer_none hP
        rw [hclaim1]
        refine Inverter.claim_zero_noop _ _ ?_ ?_
        · intro ag' heq
          have heq2 : lookupA (setA p.broker_agreements w.public
              { ag with allocated_funds := ag.allocated_funds.zeroKeys
                        claimed_funds :=
                          Funds.addU ag.claimed_funds ag.allocated_funds })
              w.public = some ag' := heq
          rw [lookupA_setA_self] at heq2
          injection heq2 with heq3
          subst heq3
          exact Funds.zeroKeys_zero _
        · intro ag' heq
          have heq2 : lookupA p.payer_agreements w.public = some ag' := heq
          rw [hP] at heq2
          cases heq2
      · rcases h1 : Funds.add pag.claimed_funds pag.allocated_funds with e | cf
        · exfalso
          have hbad : (p.claim w).2.2 = some e := by
            unfold Inverter.claim
            rw [Inverter.claimBroker_some hB]
            exact Inverter.claimPayer_err1 hP h1
          rw [hbad] at hok
          cases hok
        rcases h2 : Funds.add (Funds.addU w.funds ag.allocated_funds)
            pag.allocated_funds with e | wf
        · exfalso
          have hbad : (p.claim w).2.2 = some e := by
            unfold Inverter.claim
            rw [Inverter.claimBroker_some hB]
            exact Inverter.claimPayer_err2 hP h1 h2
          rw [hbad] at hok
          cases hok
        rcases h3 : Funds.sub (Funds.subU p.funds ag.allocated_funds)
            pag.allocated_funds with e | pf
        · exfalso
          have hbad : (p.claim w).2.2 = some e := by
            unfold Inverter.claim
            rw [Inverter.claimBroker_some hB]
            exact Inverter.claimPayer_err3 hP h1 h2 h3
          rw [hbad] at hok
          cases hok
        have hclaim1 : p.claim w =
            ({ w with funds := wf },
             { p with funds := pf
                      broker_agreements := setA p.broker_agreements w.public
                        { ag with allocated_funds := ag.allocated_funds.zeroKeys
                                  claimed_funds :=
                                    Funds.addU ag.claimed_funds ag.allocated_funds }
                      payer_agreements := setA p.payer_agreements w.public
                        { pag with allocated_funds := Funds.empty
                                   claimed_funds := cf } },
             none) := by
          unfold Inverter.claim
          rw [Inverter.claimBroker_some hB]
          exact Inverter.claimPayer_some_ok hP h1 h2 h3
        rw [hclaim1]
        refine Inverter.claim_zero_noop _ _ ?_ ?_
        · intro ag' heq
          have heq2 : lookupA (setA p.broker_agreements w.public
              { ag with allocated_funds := ag.allocated_funds.zeroKeys
                        claimed_funds :=
                          Funds.addU ag.claimed_funds ag.allocated_funds })
              w.public = some ag' := heq
          rw [lookupA_setA_self] at heq2
          injection heq2 with heq3
          subst heq3
          exact Funds.zeroKeys_zero _
        · intro ag' heq
          have heq2 : lookupA (setA p.payer_agreements w.public
              { pag with allocated_funds := Funds.empty, claimed_funds := cf })
              w.public = some ag' := heq
          rw [lookupA_setA_self] at heq2
          injection heq2 with heq3
          subst heq3
          refine ⟨?_, ?_, ?_, ?_⟩ <;>
            · intro t ht
              exact absurd ht (List.not_mem_nil t)
  · intro hzB hzP hw hf
    refine Inverter.claim_zero_noop p w ?_ ?_
    · intro ag heq t _
      exact hzB ag heq t
    · intro ag heq
      rcases hzP ag heq with ⟨hz, hcl⟩
      exact ⟨fun t _ => hz t, fun t _ => hcl t, fun t _ => hw t, fun t _ => hf t⟩

/-- Concrete instantiation of `C7_claim_idempotent`: the owner claims on a
freshly deployed proposal (zero allocations) without an exception. -/
theorem C7_witness :
    (cInverter.claim ⟨"owner1", Funds.mkF [("USD", 500)], [], [], []⟩).2.2 = none :=
  ((C7_claim_idempotent cInverter ⟨"owner1", Funds.mkF [("USD", 500)], [], [], []⟩).2
    (fun ag heq => Option.noConfusion heq)
    (fun ag heq => by
      have heq2 : some (⟨[(0, Funds.mkF [("USD", 500)])], Funds.empty,
          Funds.empty⟩ : PayerAgreement) = some ag := heq
      injection heq2 with heq3
      subst heq3
      exact ⟨fun t => rfl, fun t => le_refl 0⟩)
    (Funds.mkF_nonneg _ (fun q hq => by
      rcases List.mem_singleton.1 hq with rfl
      norm_num))
    (Funds.mkF_nonneg _ (fun q hq => by
      rcases List.mem_singleton.1 hq with rfl
      norm_num))).1

/-- The broker allocation claimable by a wallet (zero when untracked). -/
def Inverter.brokerAlloc (p' : Inverter) (w' : Wallet) : Funds :=
  match lookupA p'.broker_agreements w'.public with
  | none => Funds.empty
  | some ag => ag.allocated_funds

/-- The payer allocation claimable by a wallet (zero when untracked). -/
def Inverter.payerAlloc (p' : Inverter) (w' : Wallet) : Funds :=
  match lookupA p'.payer_agreements w'.public with
  | none => Funds.empty
  | some ag => ag.allocated_funds

/-- The per-token amount a claim moves for the broker path. -/
def Inverter.brokerAllocAmt (p' : Inverter) (w' : Wallet) (t : String) : ℚ :=
  if t ∈ (p'.brokerAlloc w').keys then (p'.brokerAlloc w').amt t else 0

/-- The per-token amount a claim moves for the payer path. -/
def Inverter.payerAllocAmt (p' : Inverter) (w' : Wallet) (t : String) : ℚ :=
  if t ∈ (p'.payerAlloc w').keys then (p'.payerAlloc w').amt t else 0

theorem Funds.addU_amt_ind (a b : Funds) (t : String) :
    (Funds.addU a b).amt t = a.amt t + (if t ∈ b.keys then b.amt t else 0) := by
  rw [Funds.addU_amt]
  by_cases h : t ∈ b.keys
  · rw [if_pos h, if_pos h]
  · rw [if_neg h, if_neg h, add_zero]

theorem Funds.subU_amt_ind (a b : Funds) (t : String) :
    (Funds.subU a b).amt t = a.amt t - (if t ∈ b.keys then b.amt t else 0) := by
  rw [Funds.subU_amt]
  by_cases h : t ∈ b.keys
  · rw [if_pos h, if_pos h]
  · rw [if_neg h, if_neg h, sub_zero]

/-- Full non-fatal specification of `claim`: the wallet gains exactly the
broker and payer allocations token-wise, the pool loses the same amounts,
the stake pool and the wallet identity are untouched, and (on well-formed
ledgers) the combined wallet+pool total is conserved. -/
theorem Inverter.claim_spec (price : String → ℚ) (toT : String)
    (p' : Inverter) (w' : Wallet) (hok : (p'.claim w').2.2 = none) :
    (∀ t, (p'.claim w').1.funds.amt t =
      w'.funds.amt t + p'.brokerAllocAmt w' t + p'.payerAllocAmt w' t) ∧
    (∀ t, (p'.claim w').2.1.funds.amt t =
      p'.funds.amt t - p'.brokerAllocAmt w' t - p'.payerAllocAmt w' t) ∧
    (p'.claim w').2.1.stake = p'.stake ∧
    (p'.claim w').1.public = w'.public ∧
    (p'.claim w').1.joined = w'.joined ∧
    (w'.funds.WF → p'.funds.WF →
      (∀ q ∈ p'.broker_agreements, q.2.allocated_funds.WF) →
      (∀ q ∈ p'.payer_agreements, q.2.allocated_funds.WF) →
      ((p'.claim w').1.funds.total price toT + (p'.claim w').2.1.funds.total price toT =
        w'.funds.total price toT + p'.funds.total price toT) ∧
      (p'.claim w').1.funds.WF ∧ (p'.claim w').2.1.funds.WF) := by
  rcases hB : lookupA p'.broker_agreements w'.public with _ | ag
  · rcases hP : lookupA p'.payer_agreements w'.public with _ | pag
    · have hclaim : p'.claim w' = (w', p', none) := by
        unfold Inverter.claim
        rw [Inverter.claimBroker_none hB]
        exact Inverter.claimPayer_none hP
      rw [hclaim]
      refine ⟨fun t => ?_, fun t => ?_, rfl, rfl, rfl, fun hw hp _ _ => ⟨rfl, hw, hp⟩⟩
      · simp [Inverter.brokerAllocAmt, Inverter.payerAllocAmt,
          Inverter.brokerAlloc, Inverter.payerAlloc, hB, hP, Funds.empty]
      · simp [Inverter.brokerAllocAmt, Inverter.payerAllocAmt,
          Inverter.brokerAlloc, Inverter.payerAlloc, hB, hP, Funds.empty]
    · rcases h1 : Funds.add pag.claimed_funds pag.allocated_funds with e | cf
      · exfalso
        have hbad : (p'.claim w').2.2 = some e := by
          unfold Inverter.claim
          rw [Inverter.claimBroker_none hB]
          exact Inverter.claimPayer_err1 hP h1
        rw [hbad] at hok
        cases hok
      rcases h2 : Funds.add w'.funds pag.allocated_funds with e | wf
      · exfalso
        have hbad : (p'.claim w').2.2 = some e := by
          unfold Inverter.claim
          rw [Inverter.claimBroker_none hB]
          exact Inverter.claimPayer_err2 hP h1 h2
        rw [hbad] at hok
        cases hok
      rcases h3 : Funds.sub p'.funds pag.allocated_funds with e | pf
      · exfalso
        have hbad : (p'.claim w').2.2 = some e := by
          unfold Inverter.claim
          rw [Inverter.claimBroker_none hB]
          exact Inverter.claimPayer_err3 hP h1 h2 h3
        rw [hbad] at hok
        cases hok
      have hwf : wf = Funds.addU w'.funds pag.allocated_funds := (Funds.add_ok_iff.1 h2).2
      have hpf : pf = Funds.subU p'.funds pag.allocated_funds := (Funds.sub_ok_iff.1 h3).2
      have hclaim : p'.claim w' =
          ({ w' with funds := wf },
           { p' with funds := pf
                     payer_agreements := setA p'.payer_agreements w'.public
                       { pag with allocated_funds := Funds.empty
                                  claimed_funds := cf } },
           none) := by
        unfold Inverter.claim
        rw [Inverter.claimBroker_none hB]
        exact Inverter.claimPayer_some_ok hP h1 h2 h3
      rw [hclaim]
      have hba : ∀ t, p'.brokerAllocAmt w' t = 0 := by
        intro t
        simp [Inverter.brokerAllocAmt, Inverter.brokerAlloc, hB, Funds.empty]
      have hpa : ∀ t, p'.payerAllocAmt w' t =
          if t ∈ pag.allocated_funds.keys then pag.allocated_funds.amt t else 0 := by
        intro t
        simp [Inverter.payerAllocAmt, Inverter.payerAlloc, hP]
      refine ⟨fun t => ?_, fun t => ?_, rfl, rfl, rfl, fun hw hp _ hpawf => ?_⟩
      · rw [hwf]
        show (Funds.addU w'.funds pag.allocated_funds).amt t = _
        rw [Funds.addU_amt_ind, hba, hpa, add_zero]
      · rw [hpf]
        show (Funds.subU p'.funds pag.allocated_funds).amt t = _
        rw [Funds.subU_amt_ind, hba, hpa, sub_zero]
      · have hagwf : pag.allocated_funds.WF :=
          hpawf (w'.public, pag) (lookupA_some_mem hP)
        rw [hwf, hpf]
        refine ⟨?_, Funds.addU_WF hw hagwf, Funds.subU_WF hp hagwf⟩
        show (Funds.addU w'.funds pag.allocated_funds).total price toT +
          (Funds.subU p'.funds pag.allocated_funds).total price toT = _
        rw [Funds.total_addU hw hagwf, Funds.total_subU hp hagwf]
        ring
  · rcases h1' : lookupA p'.payer_agreements w'.public with _ | pag
    · have hclaim : p'.claim w' =
          ({ w' with funds := Funds.addU w'.funds ag.allocated_funds },
           { p' with funds := Funds.subU p'.funds ag.allocated_funds
                     broker_agreements := setA p'.broker_agreements w'.public
                       { ag with allocated_funds := ag.allocated_funds.zeroKeys
                                 claimed_funds :=
                                   Funds.addU ag.claimed_funds ag.allocated_funds } },
           none) := by
        unfold Inverter.claim
        rw [Inverter.claimBroker_some hB]
        exact Inverter.claimPayer_none h1'
      rw [hclaim]
      have hba : ∀ t, p'.brokerAllocAmt w' t =
          if t ∈ ag.allocated_funds.keys then ag.allocated_funds.amt t else 0 := by
        intro t
        simp [Inverter.brokerAllocAmt, Inverter.brokerAlloc, hB]
      have hpa : ∀ t, p'.payerAllocAmt w' t = 0 := by
        intro t
        simp [Inverter.payerAllocAmt, Inverter.payerAlloc, h1', Funds.empty]
      refine ⟨fun t => ?_, fun t => ?_, rfl, rfl, rfl, fun hw hp hbawf _ => ?_⟩
      · show (Funds.addU w'.funds ag.allocated_funds).amt t = _
        rw [Funds.addU_amt_ind, hba, hpa, add_zero]
      · show (Funds.subU p'.funds ag.allocated_funds).amt t = _
        rw [Funds.subU_amt_ind, hba, hpa, sub_zero]
      · have hagwf : ag.allocated_funds.WF :=
          hbawf (w'.public, ag) (lookupA_some_mem hB)
        refine ⟨?_, Funds.addU_WF hw hagwf, Funds.subU_WF hp hagwf⟩
        show (Funds.addU w'.funds ag.allocated_funds).total price toT +
          (Funds.subU p'.funds ag.allocated_funds).total price toT = _
        rw [Funds.total_addU hw hagwf, Funds.total_subU hp hagwf]
        ring
    · rcases h1 : Funds.add pag.claimed_funds pag.allocated_funds with e | cf
      · exfalso
        have hbad : (p'.claim w').2.2 = some e := by
          unfold Inverter.claim
          rw [Inverter.claimBroker_some hB]
          exact Inverter.claimPayer_err1 h1' h1
        rw [hbad] at hok
        cases hok
      rcases h2 : Funds.add (Funds.addU w'.funds ag.allocated_funds)
          pag.allocated_funds with e | wf
      · exfalso
        have hbad : (p'.claim w').2.2 = some e := by
          unfold Inverter.claim
          rw [Inverter.claimBroker_some hB]
          exact Inverter.claimPayer_err2 h1' h1 h2
        rw [hbad] at hok
        cases hok
      rcases h3 : Funds.sub (Funds.subU p'.funds ag.allocated_funds)
          pag.allocated_funds with e | pf
      · exfalso
        have hbad : (p'.claim w').2.2 = some e := by
          unfold Inverter.claim
          rw [Inverter.claimBroker_some hB]
          exact Inverter.claimPayer_err3 h1' h1 h2 h3
        rw [hbad] at hok
        cases hok
      have hwf : wf = Funds.addU (Funds.addU w'.funds ag.allocated_funds)
          pag.allocated_funds := (Funds.add_ok_iff.1 h2).2
      have hpf : pf = Funds.subU (Funds.subU p'.funds ag.allocated_funds)
          pag.allocated_funds := (Funds.sub_ok_iff.1 h3).2
      have hclaim : p'.claim w' =
          ({ w' with funds := wf },
           { p' with funds := pf
                     broker_agreements := setA p'.broker_agreements w'.public
                       { ag with allocated_funds := ag.allocated_funds.zeroKeys
                                 claimed_funds :=
                                   Funds.addU ag.claimed_funds ag.allocated_funds }
                     payer_agreements := setA p'.payer_agreements w'.public
                       { pag with allocated_funds := Funds.empty
                                  claimed_funds := cf } },
           none) := by
        unfold Inverter.claim
        rw [Inverter.claimBroker_some hB]
        exact Inverter.claimPayer_some_ok h1' h1 h2 h3
      rw [hclaim]
      have hba : ∀ t, p'.brokerAllocAmt w' t =
          if t ∈ ag.allocated_funds.keys then ag.allocated_funds.amt t else 0 := by
        intro t
        simp [Inverter.brokerAllocAmt, Inverter.brokerAlloc, hB]
      have hpa : ∀ t, p'.payerAllocAmt w' t =
          if t ∈ pag.allocated_funds.keys then pag.allocated_funds.amt t else 0 := by
        intro t
        simp [Inverter.payerAllocAmt, Inverter.payerAlloc, h1']
      refine ⟨fun t => ?_, fun t => ?_, rfl, rfl, rfl, fun hw hp hbawf hpawf => ?_⟩
      · rw [hwf]
        show (Funds.addU (Funds.addU w'.funds ag.allocated_funds)
          pag.allocated_funds).amt t = _
        rw [Funds.addU_amt_ind, Funds.addU_amt_ind, hba, hpa]
      · rw [hpf]
        show (Funds.subU (Funds.subU p'.funds ag.allocated_funds)
          pag.allocated_funds).amt t = _
        rw [Funds.subU_amt_ind, Funds.subU_amt_ind, hba, hpa]
      · have hagwf : ag.allocated_funds.WF :=
          hbawf (w'.public, ag) (lookupA_some_mem hB)
        have hpagwf : pag.allocated_funds.WF :=
          hpawf (w'.public, pag) (lookupA_some_mem h1')
        rw [hwf, hpf]
        refine ⟨?_, Funds.addU_WF (Funds.addU_WF hw hagwf) hpagwf,
          Funds.subU_WF (Funds.subU_WF hp hagwf) hpagwf⟩
        show (Funds.addU (Funds.addU w'.funds ag.allocated_funds)
            pag.allocated_funds).total price toT +
          (Funds.subU (Funds.subU p'.funds ag.allocated_funds)
            pag.allocated_funds).total price toT = _
        rw [Funds.total_addU (Funds.addU_WF hw hagwf) hpagwf,
          Funds.total_subU (Funds.subU_WF hp hagwf) hpagwf,
          Funds.total_addU hw hagwf, Funds.total_subU hp hagwf]
        ring

/-! ## C9: `leave` semantics -/

/-- C9: `leave` on an untracked wallet is a no-op returning the wallet (and
proposal) unchanged with a not-a-member signal; for a tracked broker the
stake is refunded to the broker's wallet iff the proposal is cancelled or
`current_epoch - epoch_joined ≥ min_epochs` and is otherwise forfeited into
the proposal's general funds, outstanding broker/payer allocations are
claimed into the broker's wallet, the stake pool is debited by the recorded
stake, and the agreement record is deleted. -/
theorem C9_leave_spec (p : Inverter) (b : Wallet) :
    (lookupA p.broker_agreements b.public = none →
      p.leave b = (b, p, .rejected .notMember)) ∧
    (∀ ag, lookupA p.broker_agreements b.public = some ag →
      (Inverter.refundCond p ag = true ↔
        (p.cancelled = true ∨
          p.cfg.min_epochs ≤ (p.current_epoch : ℚ) - (ag.epoch_joined : ℚ))) ∧
      ((p.leave b).2.2 = .ok →
        lookupA (p.leave b).2.1.broker_agreements b.public = none ∧
        (∀ t, (p.leave b).2.1.stake.amt t =
          p.stake.amt t - (if t ∈ ag.stake.keys then ag.stake.amt t else 0)) ∧
        (∀ t, (p.leave b).1.funds.amt t =
          b.funds.amt t +
          (if Inverter.refundCond p ag = true
            then (if t ∈ ag.stake.keys then ag.stake.amt t else 0) else 0) +
          Inverter.brokerAllocAmt p b t + Inverter.payerAllocAmt p b t) ∧
        (∀ t, (p.leave b).2.1.funds.amt t =
          p.funds.amt t +
          (if Inverter.refundCond p ag = true then 0
            else (if t ∈ ag.stake.keys then ag.stake.amt t else 0)) -
          Inverter.brokerAllocAmt p b t - Inverter.payerAllocAmt p b t))) := by
  refine ⟨fun h => ?_, fun ag hB => ⟨?_, fun hok => ?_⟩⟩
  · unfold Inverter.leave
    rw [h]
  · unfold Inverter.refundCond
    rw [Bool.or_eq_true, decide_eq_true_eq]
  · have h0 : p.leave b =
        (if Inverter.refundCond p ag = true then
          (match Funds.add b.funds ag.stake with
           | .error e => (b, p, Outcome.fatal e)
           | .ok bf =>
             match Funds.sub p.stake ag.stake with
             | .error e => ({ b with funds := bf }, p, Outcome.fatal e)
             | .ok ps =>
               Inverter.leaveTail { p with stake := ps } { b with funds := bf })
        else
          (match Funds.add p.funds ag.stake with
           | .error e => (b, p, Outcome.fatal e)
           | .ok pf =>
             match Funds.sub p.stake ag.stake with
             | .error e => (b, { p with funds := pf }, Outcome.fatal e)
             | .ok ps =>
               Inverter.leaveTail { p with funds := pf, stake := ps } b)) := by
      unfold Inverter.leave
      rw [hB]
    by_cases hrc : Inverter.refundCond p ag = true
    · rw [if_pos hrc] at h0
      rcases hs1 : Funds.add b.funds ag.stake with e | bf
      · rw [hs1] at h0
        exfalso
        have hbad : (p.leave b).2.2 = Outcome.fatal e := by rw [h0]
        exact Outcome.noConfusion (hok.symm.trans hbad)
      rw [hs1] at h0
      rcases hs2 : Funds.sub p.stake ag.stake with e | ps
      · rw [hs2] at h0
        exfalso
        have hbad : (p.leave b).2.2 = Outcome.fatal e := by rw [h0]
        exact Outcome.noConfusion (hok.symm.trans hbad)
      rw [hs2] at h0
      have h1 : p.leave b =
          Inverter.leaveTail { p with stake := ps } { b with funds := bf } := h0
      have h2 : p.leave b =
          (match Inverter.claim { p with stake := ps } { b with funds := bf } with
           | (b2, p2, some e) => (b2, p2, Outcome.fatal e)
           | (b2, p2, none) =>
             ({ b2 with joined := removeS b2.joined p.public },
              { p2 with broker_agreements := eraseA p2.broker_agreements b.public },
              Outcome.ok)) := by
        rw [h1]
        rfl
      rcases hcl : Inverter.claim { p with stake := ps } { b with funds := bf }
        with ⟨b2, p2, oerr⟩
      rw [hcl] at h2
      rcases oerr with _ | e
      swap
      · exfalso
        have hbad : (p.leave b).2.2 = Outcome.fatal e := by rw [h2]
        exact Outcome.noConfusion (hok.symm.trans hbad)
      have hok' : (Inverter.claim { p with stake := ps } { b with funds := bf }).2.2
          = none := by
        rw [hcl]
      have spec := Inverter.claim_spec (fun _ => 1) "USD"
        { p with stake := ps } { b with funds := bf } hok'
      rw [hcl] at spec
      have hba : ∀ t, Inverter.brokerAllocAmt { p with stake := ps }
          { b with funds := bf } t = Inverter.brokerAllocAmt p b t := fun t => rfl
      have hpa : ∀ t, Inverter.payerAllocAmt { p with stake := ps }
          { b with funds := bf } t = Inverter.payerAllocAmt p b t := fun t => rfl
      have hbf : bf = Funds.addU b.funds ag.stake := (Funds.add_ok_iff.1 hs1).2
      have hps : ps = Funds.subU p.stake ag.stake := (Funds.sub_ok_iff.1 hs2).2
      rw [h2]
      refine ⟨?_, fun t => ?_, fun t => ?_, fun t => ?_⟩
      · exact lookupA_eraseA_self _ _
      · have := congrArg (fun f => f.amt t) spec.2.2.1
        simp only at this
        rw [this, hps, Funds.subU_amt_ind]
      · have := spec.1 t
        rw [hba, hpa] at this
        simp only at this
        rw [this, hbf, Funds.addU_amt_ind, if_pos hrc]
      · have := spec.2.1 t
        rw [hba, hpa] at this
        simp only at this
        rw [this, if_pos hrc]
        ring
    · rw [if_neg hrc] at h0
      rcases hs1 : Funds.add p.funds ag.stake with e | pf
      · rw [hs1] at h0
        exfalso
        have hbad : (p.leave b).2.2 = Outcome.fatal e := by rw [h0]
        exact Outcome.noConfusion (hok.symm.trans hbad)
      rw [hs1] at h0
      rcases hs2 : Funds.sub p.stake ag.stake with e | ps
      · rw [hs2] at h0
        exfalso
        have hbad : (p.leave b).2.2 = Outcome.fatal e := by rw [h0]
        exact Outcome.noConfusion (hok.symm.trans hbad)
      rw [hs2] at h0
      have h1 : p.leave b =
          Inverter.leaveTail { p with funds := pf, stake := ps } b := h0
      have h2 : p.leave b =
          (match Inverter.claim { p with funds := pf, stake := ps } b with
           | (b2, p2, some e) => (b2, p2, Outcome.fatal e)
           | (b2, p2, none) =>
             ({ b2 with joined := removeS b2.joined p.public },
              { p2 with broker_agreements := eraseA p2.broker_agreements b.public },
              Outcome.ok)) := by
        rw [h1]
        rfl
      rcases hcl : Inverter.claim { p with funds := pf, stake := ps } b
        with ⟨b2, p2, oerr⟩
      rw [hcl] at h2
      rcases oerr with _ | e
      swap
      · exfalso
        have hbad : (p.leave b).2.2 = Outcome.fatal e := by rw [h2]
        exact Outcome.noConfusion (hok.symm.trans hbad)
      have hok' : (Inverter.claim { p with funds := pf, stake := ps } b).2.2
          = none := by
        rw [hcl]
      have spec := Inverter.claim_spec (fun _ => 1) "USD"
        { p with funds := pf, stake := ps } b hok'
      rw [hcl] at spec
      have hba : ∀ t, Inverter.brokerAllocAmt { p with funds := pf, stake := ps }
          b t = Inverter.brokerAllocAmt p b t := fun t => rfl
      have hpa : ∀ t, Inverter.payerAllocAmt { p with funds := pf, stake := ps }
          b t = Inverter.payerAllocAmt p b t := fun t => rfl
      have hpf : pf = Funds.addU p.funds ag.stake := (Funds.add_ok_iff.1 hs1).2
      have hps : ps = Funds.subU p.stake ag.stake := (Funds.sub_ok_iff.1 hs2).2
      rw [h2]
      refine ⟨?_, fun t => ?_, fun t => ?_, fun t => ?_⟩
      · exact lookupA_eraseA_self _ _
      · have := congrArg (fun f => f.amt t) spec.2.2.1
        simp only at this
        rw [this, hps, Funds.subU_amt_ind]
      · have := spec.1 t
        rw [hba, hpa] at this
        simp only at this
        rw [this, if_neg hrc]
        ring
      · have := spec.2.1 t
        rw [hba, hpa] at this
        simp only at this
        rw [this, hpf, Funds.addU_amt_ind, if_neg hrc]

/-- Concrete instantiation of `C9_leave_spec`: leaving a proposal the
wallet never joined returns the wallet unchanged with a not-a-member
signal. -/
theorem C9_witness :
    cInverter.leave ⟨"w9", Funds.mkF [("USD", 7)], [], [], []⟩ =
      (⟨"w9", Funds.mkF [("USD", 7)], [], [], []⟩, cInverter,
        .rejected .notMember) :=
  (C9_leave_spec cInverter ⟨"w9", Funds.mkF [("USD", 7)], [], [], []⟩).1 rfl

/-! ## C1: conservation of value -/

theorem Inverter.payCore_ok {p : Inverter} {payer1 : Wallet}
    {ags : List (String × PayerAgreement)} {ag : PayerAgreement} {tokens : Funds}
    {c pf pfunds : Funds}
    (h1 : (contribGet ag.contributions p.current_epoch).add tokens = .ok c)
    (h2 : Funds.sub payer1.funds tokens = .ok pf)
    (h3 : Funds.add p.funds tokens = .ok pfunds) :
    Inverter.payCore p payer1 ags ag tokens =
      ({ payer1 with funds := pf },
       { p with payer_agreements := setA ags payer1.public
                  { ag with contributions := setA ag.contributions p.current_epoch c }
                funds := pfunds },
       .ok) := by
  unfold Inverter.payCore
  simp only [h1, h2, h3]

theorem Inverter.payCore_err1 {p : Inverter} {payer1 : Wallet}
    {ags : List (String × PayerAgreement)} {ag : PayerAgreement} {tokens : Funds}
    {e : Err}
    (h1 : (contribGet ag.contributions p.current_epoch).add tokens = .error e) :
    (Inverter.payCore p payer1 ags ag tokens).2.2 = .fatal e := by
  unfold Inverter.payCore
  simp only [h1]

theorem Inverter.payCore_err2 {p : Inverter} {payer1 : Wallet}
    {ags : List (String × PayerAgreement)} {ag : PayerAgreement} {tokens : Funds}
    {c : Funds} {e : Err}
    (h1 : (contribGet ag.contributions p.current_epoch).add tokens = .ok c)
    (h2 : Funds.sub payer1.funds tokens = .error e) :
    (Inverter.payCore p payer1 ags ag tokens).2.2 = .fatal e := by
  unfold Inverter.payCore
  simp only [h1, h2]

theorem Inverter.payCore_err3 {p : Inverter} {payer1 : Wallet}
    {ags : List (String × PayerAgreement)} {ag : PayerAgreement} {tokens : Funds}
    {c pf : Funds} {e : Err}
    (h1 : (contribGet ag.contributions p.current_epoch).add tokens = .ok c)
    (h2' : Funds.sub payer1.funds tokens = .ok pf)
    (h3 : Funds.add p.funds tokens = .error e) :
    (Inverter.payCore p payer1 ags ag tokens).2.2 = .fatal e := by
  unfold Inverter.payCore
  simp only [h1, h2', h3]

/-- The conserved quantity of C1: the calling wallet's funds plus the
proposal's pooled funds plus its stake pool, valued at the shared price
table. -/
def totalValue (price : String → ℚ) (toT : String) (w : Wallet) (p : Inverter) : ℚ :=
  w.funds.total price toT + p.funds.total price toT + p.stake.total price toT

/-- C1: on well-formed states, `join`, `pay`, `claim` and `leave` conserve
the sum of the calling wallet's funds and the proposal's funds and stake —
whether the call succeeds, is rejected with a reason, or routes the caller
to a waitlist (the excluded outcomes are exactly the raised ledger
exceptions); value is only moved between the ledgers. -/
theorem C1_conservation (price : String → ℚ) (toT : String) (p : Inverter)
    (w : Wallet) (stake tokens : Funds)
    (hw : w.funds.WF) (hpf : p.funds.WF) (hps : p.stake.WF)
    (hstk : stake.WF) (htok : tokens.WF)
    (hbag : ∀ q ∈ p.broker_agreements, q.2.stake.WF ∧ q.2.allocated_funds.WF)
    (hpag : ∀ q ∈ p.payer_agreements, q.2.allocated_funds.WF) :
    ((∀ e, (Inverter.join price p w stake).2.2 ≠ .fatal e) →
      totalValue price toT (Inverter.join price p w stake).1
        (Inverter.join price p w stake).2.1 = totalValue price toT w p) ∧
    ((∀ e, (Inverter.pay price p w tokens).2.2 ≠ .fatal e) →
      totalValue price toT (Inverter.pay price p w tokens).1
        (Inverter.pay price p w tokens).2.1 = totalValue price toT w p) ∧
    ((p.claim w).2.2 = none →
      totalValue price toT (p.claim w).1 (p.claim w).2.1 = totalValue price toT w p) ∧
    ((∀ e, (p.leave w).2.2 ≠ .fatal e) →
      totalValue price toT (p.leave w).1 (p.leave w).2.1 = totalValue price toT w p) := by
  refine ⟨fun hnf => ?_, fun hnf => ?_, fun hok => ?_, fun hnf => ?_⟩
  · -- join
    by_cases h1 : Funds.ltF w.funds stake = true
    · exfalso
      apply hnf Err.insufficientFunds
      unfold Inverter.join
      rw [if_pos h1]
    by_cases h2 : memA p.broker_agreements w.public = true
    · have hj : Inverter.join price p w stake = (w, p, .rejected .alreadyMember) := by
        unfold Inverter.join
        rw [if_neg h1, if_pos h2]
      rw [hj]
    · by_cases h3 : p.cfg.max_brokers < (p.get_number_of_brokers : ℚ) + 1
      · have hj : Inverter.join price p w stake = (w, p, .rejected .maxBrokers) := by
          unfold Inverter.join
          rw [if_neg h1, if_neg h2, if_pos h3]
        rw [hj]
      by_cases h4 : stake.total price "USD" < p.cfg.min_stake
      · have hj : Inverter.join price p w stake = (w, p, .rejected .belowMinStake) := by
          unfold Inverter.join
          rw [if_neg h1, if_neg h2, if_neg h3, if_pos h4]
        rw [hj]
      by_cases h5 : p.cancelled = true
      · have hj : Inverter.join price p w stake = (w, p, .rejected .cancelled) := by
          unfold Inverter.join
          rw [if_neg h1, if_neg h2, if_neg h3, if_neg h4, if_pos h5]
        rw [hj]
      by_cases h6 : p.broker_whitelist.inWhitelist w.public = true
      · rcases hsub : Funds.sub w.funds stake with e | bf
        · exfalso
          apply hnf e
          unfold Inverter.join
          rw [if_neg h1, if_neg h2, if_neg h3, if_neg h4, if_neg h5, if_pos h6, hsub]
        rcases hadd : Funds.add p.stake stake with e | ps
        · exfalso
          apply hnf e
          unfold Inverter.join
          rw [if_neg h1, if_neg h2, if_neg h3, if_neg h4, if_neg h5, if_pos h6,
            hsub, hadd]
        have hj : Inverter.join price p w stake =
            ({ w with funds := bf, joined := insertS w.joined p.public },
             { p with stake := ps
                      broker_agreements := setA p.broker_agreements w.public
                        ⟨p.current_epoch, stake, Funds.empty, Funds.empty⟩ },
             .ok) := by
          unfold Inverter.join
          rw [if_neg h1, if_neg h2, if_neg h3, if_neg h4, if_neg h5, if_pos h6,
            hsub, hadd]
        rw [hj]
        unfold totalValue
        rw [(Funds.sub_ok_iff.1 hsub).2, (Funds.add_ok_iff.1 hadd).2]
        show (Funds.subU w.funds stake).total price toT + p.funds.total price toT +
          (Funds.addU p.stake stake).total price toT = _
        rw [Funds.total_subU hw hstk, Funds.total_addU hps hstk]
        ring
      · have hj : Inverter.join price p w stake =
            (w, { p with broker_whitelist :=
              p.broker_whitelist.addWaitlist w.public }, .waitlisted) := by
          unfold Inverter.join
          rw [if_neg h1, if_neg h2, if_neg h3, if_neg h4, if_neg h5, if_neg h6]
        rw [hj]
        rfl
  · -- pay
    by_cases h1 : Funds.ltF w.funds tokens = true
    · have hj : Inverter.pay price p w tokens = (w, p, .rejected .insufficientFunds) := by
        unfold Inverter.pay
        rw [if_pos h1]
      rw [hj]
    by_cases h2 : tokens.total price "USD" < p.cfg.min_contribution
    · have hj : Inverter.pay price p w tokens =
          (w, p, .rejected .belowMinContribution) := by
        unfold Inverter.pay
        rw [if_neg h1, if_pos h2]
      rw [hj]
    by_cases h3 : p.cancelled = true
    · have hj : Inverter.pay price p w tokens = (w, p, .rejected .cancelled) := by
        unfold Inverter.pay
        rw [if_neg h1, if_neg h2, if_pos h3]
      rw [hj]
    by_cases h5 : p.payer_whitelist.inWhitelist w.public = true
    swap
    · have hj : Inverter.pay price p w tokens =
          (w, { p with payer_whitelist :=
            p.payer_whitelist.addWaitlist w.public }, .waitlisted) := by
        unfold Inverter.pay
        rw [if_neg h1, if_neg h2, if_neg h3, if_neg h5]
      rw [hj]
      rfl
    by_cases hNew : memA p.payer_agreements w.public = true
    · have hpay : Inverter.pay price p w tokens =
          Inverter.payCore p w p.payer_agreements
            ((lookupA p.payer_agreements w.public).getD PayerAgreement.emptyA)
            tokens := by
        unfold Inverter.pay
        rw [if_neg h1, if_neg h2, if_neg h3, if_pos h5, if_pos hNew]
      rcases hc : (contribGet ((lookupA p.payer_agreements w.public).getD
          PayerAgreement.emptyA).contributions p.current_epoch).add tokens with e | c
      · exfalso
        apply hnf e
        rw [hpay]
        exact Inverter.payCore_err1 hc
      rcases hsub : Funds.sub w.funds tokens with e | pf
      · exfalso
        apply hnf e
        rw [hpay]
        exact Inverter.payCore_err2 hc hsub
      rcases hadd : Funds.add p.funds tokens with e | pfunds
      · exfalso
        apply hnf e
        rw [hpay]
        exact Inverter.payCore_err3 hc hsub hadd
      rw [hpay, Inverter.payCore_ok hc hsub hadd]
      unfold totalValue
      rw [(Funds.sub_ok_iff.1 hsub).2, (Funds.add_ok_iff.1 hadd).2]
      show (Funds.subU w.funds tokens).total price toT +
        (Funds.addU p.funds tokens).total price toT + p.stake.total price toT = _
      rw [Funds.total_subU hw htok, Funds.total_addU hpf htok]
      ring
    · have hpay : Inverter.pay price p w tokens =
          Inverter.payCore p { w with paid := insertS w.paid p.public }
            (setA p.payer_agreements w.public PayerAgreement.emptyA)
            PayerAgreement.emptyA tokens := by
        unfold Inverter.pay
        rw [if_neg h1, if_neg h2, if_neg h3, if_pos h5, if_neg hNew]
      rcases hc : (contribGet PayerAgreement.emptyA.contributions
          p.current_epoch).add tokens with e | c
      · exfalso
        apply hnf e
        rw [hpay]
        exact Inverter.payCore_err1 hc
      rcases hsub : Funds.sub w.funds tokens with e | pf
      · exfalso
        apply hnf e
        rw [hpay]
        exact Inverter.payCore_err2 hc hsub
      rcases hadd : Funds.add p.funds tokens with e | pfunds
      · exfalso
        apply hnf e
        rw [hpay]
        exact Inverter.payCore_err3 hc hsub hadd
      rw [hpay, @Inverter.payCore_ok p { w with paid := insertS w.paid p.public }
        (setA p.payer_agreements w.public PayerAgreement.emptyA)
        PayerAgreement.emptyA tokens c pf pfunds hc hsub hadd]
      unfold totalValue
      rw [(Funds.sub_ok_iff.1 hsub).2, (Funds.add_ok_iff.1 hadd).2]
      show (Funds.subU w.funds tokens).total price toT +
        (Funds.addU p.funds tokens).total price toT + p.stake.total price toT = _
      rw [Funds.total_subU hw htok, Funds.total_addU hpf htok]
      ring
  · -- claim
    have spec := Inverter.claim_spec price toT p w hok
    have h6 := spec.2.2.2.2.2 hw hpf (fun q hq => (hbag q hq).2) hpag
    unfold totalValue
    rw [spec.2.2.1]
    linarith [h6.1]
  · -- leave
    rcases hB : lookupA p.broker_agreements w.public with _ | ag
    · have hlv : p.leave w = (w, p, .rejected .notMember) := by
        unfold Inverter.leave
        rw [hB]
      rw [hlv]
    · have hsw : ag.stake.WF := (hbag (w.public, ag) (lookupA_some_mem hB)).1
      have h0 : p.leave w =
          (if Inverter.refundCond p ag = true then
            (match Funds.add w.funds ag.stake with
             | .error e => (w, p, Outcome.fatal e)
             | .ok bf =>
               match Funds.sub p.stake ag.stake with
               | .error e => ({ w with funds := bf }, p, Outcome.fatal e)
               | .ok ps =>
                 Inverter.leaveTail { p with stake := ps } { w with funds := bf })
          else
            (match Funds.add p.funds ag.stake with
             | .error e => (w, p, Outcome.fatal e)
             | .ok pf =>
               match Funds.sub p.stake ag.stake with
               | .error e => (w, { p with funds := pf }, Outcome.fatal e)
               | .ok ps =>
                 Inverter.leaveTail { p with funds := pf, stake := ps } w)) := by
        unfold Inverter.leave
        rw [hB]
      by_cases hrc : Inverter.refundCond p ag = true
      · rw [if_pos hrc] at h0
        rcases hs1 : Funds.add w.funds ag.stake with e | bf
        · rw [hs1] at h0
          exact absurd (by rw [h0]) (hnf e)
        rw [hs1] at h0
        rcases hs2 : Funds.sub p.stake ag.stake with e | ps
        · rw [hs2] at h0
          exact absurd (by rw [h0]) (hnf e)
        rw [hs2] at h0
        have h1 : p.leave w =
            Inverter.leaveTail { p with stake := ps } { w with funds := bf } := h0
        have h2 : p.leave w =
            (match Inverter.claim { p with stake := ps } { w with funds := bf } with
             | (b2, p2, some e) => (b2, p2, Outcome.fatal e)
             | (b2, p2, none) =>
               ({ b2 with joined := removeS b2.joined p.public },
                { p2 with broker_agreements := eraseA p2.broker_agreements w.public },
                Outcome.ok)) := by
          rw [h1]
          rfl
        rcases hcl : Inverter.claim { p with stake := ps } { w with funds := bf }
          with ⟨b2, p2, oerr⟩
        rw [hcl] at h2
        rcases oerr with _ | e
        swap
        · exact absurd (by rw [h2]) (hnf e)
        have hok' : (Inverter.claim { p with stake := ps }
            { w with funds := bf }).2.2 = none := by
          rw [hcl]
        have spec := Inverter.claim_spec price toT
          { p with stake := ps } { w with funds := bf } hok'
        rw [hcl] at spec
        have hbfeq : bf = Funds.addU w.funds ag.stake := (Funds.add_ok_iff.1 hs1).2
        have hbfWF : bf.WF := by
          rw [hbfeq]
          exact Funds.addU_WF hw hsw
        have h6 := spec.2.2.2.2.2 hbfWF hpf (fun q hq => (hbag q hq).2) hpag
        have hpseq : ps = Funds.subU p.stake ag.stake := (Funds.sub_ok_iff.1 hs2).2
        rw [h2]
        unfold totalValue
        rw [spec.2.2.1]
        have hsum := h6.1
        have hbft : bf.total price toT =
            w.funds.total price toT + ag.stake.total price toT := by
          rw [hbfeq, Funds.total_addU hw hsw]
        have hpst : ps.total price toT =
            p.stake.total price toT - ag.stake.total price toT := by
          rw [hpseq, Funds.total_subU hps hsw]
        show b2.funds.total price toT + p2.funds.total price toT +
          ps.total price toT = _
        rw [hpst]
        rw [show b2.funds.total price toT + p2.funds.total price toT =
          bf.total price toT + p.funds.total price toT from hsum]
        rw [hbft]
        ring
      · rw [if_neg hrc] at h0
        rcases hs1 : Funds.add p.funds ag.stake with e | pf
        · rw [hs1] at h0
          exact absurd (by rw [h0]) (hnf e)
        rw [hs1] at h0
        rcases hs2 : Funds.sub p.stake ag.stake with e | ps
        · rw [hs2] at h0
          exact absurd (by rw [h0]) (hnf e)
        rw [hs2] at h0
        have h1 : p.leave w =
            Inverter.leaveTail { p with funds := pf, stake := ps } w := h0
        have h2 : p.leave w =
            (match Inverter.claim { p with funds := pf, stake := ps } w with
             | (b2, p2, some e) => (b2, p2, Outcome.fatal e)
             | (b2, p2, none) =>
               ({ b2 with joined := removeS b2.joined p.public },
                { p2 with broker_agreements := eraseA p2.broker_agreements w.public },
                Outcome.ok)) := by
          rw [h1]
          rfl
        rcases hcl : Inverter.claim { p with funds := pf, stake := ps } w
          with ⟨b2, p2, oerr⟩
        rw [hcl] at h2
        rcases oerr with _ | e
        swap
        · exact absurd (by rw [h2]) (hnf e)
        have hok' : (Inverter.claim { p with funds := pf, stake := ps } w).2.2
            = none := by
          rw [hcl]
        have spec := Inverter.claim_spec price toT
          { p with funds := pf, stake := ps } w hok'
        rw [hcl] at spec
        have hpfeq : pf = Funds.addU p.funds ag.stake := (Funds.add_ok_iff.1 hs1).2
        have hpseq : ps = Funds.subU p.stake ag.stake := (Funds.sub_ok_iff.1 hs2).2
        have hpfWF : pf.WF := by
          rw [hpfeq]
          exact Funds.addU_WF hpf hsw
        have h6 := spec.2.2.2.2.2 hw hpfWF (fun q hq => (hbag q hq).2) hpag
        rw [h2]
        unfold totalValue
        rw [spec.2.2.1]
        have hsum := h6.1
        have hpft : pf.total price toT =
            p.funds.total price toT + ag.stake.total price toT := by
          rw [hpfeq, Funds.total_addU hpf hsw]
        have hpst : ps.total price toT =
            p.stake.total price toT - ag.stake.total price toT := by
          rw [hpseq, Funds.total_subU hps hsw]
        show b2.funds.total price toT + p2.funds.total price toT +
          ps.total price toT = _
        rw [hpst]
        rw [show b2.funds.total price toT + p2.funds.total price toT =
          w.funds.total price toT + pf.total price toT from hsum]
        rw [hpft]
        ring

/-- Concrete instantiation of `C1_conservation`: the owner's claim on a
fresh proposal conserves wallet + pool + stake value. -/
theorem C1_witness :
    totalValue unitPrice "USD"
        (cInverter.claim ⟨"owner1", Funds.mkF [("USD", 500)], [], [], []⟩).1
        (cInverter.claim ⟨"owner1", Funds.mkF [("USD", 500)], [], [], []⟩).2.1 =
      totalValue unitPrice "USD"
        ⟨"owner1", Funds.mkF [("USD", 500)], [], [], []⟩ cInverter :=
  (C1_conservation unitPrice "USD" cInverter
      ⟨"owner1", Funds.mkF [("USD", 500)], [], [], []⟩
      Funds.empty Funds.empty
      (Funds.mkF_WF _ (by decide)) (Funds.mkF_WF _ (by decide)) Funds.empty_WF
      Funds.empty_WF Funds.empty_WF
      (fun q hq => absurd hq (List.not_mem_nil q))
      (fun q hq => by
        rcases List.mem_singleton.1 hq with rfl
        exact Funds.empty_WF)).2.2.1
    (by with_unfolding_all rfl)

/-! ## C3: `cancel` -/

/-- If the broker distribution loop of `cancel` completes, every broker
agreement received exactly `horizon_funds / number_of_brokers`. -/
theorem Inverter.distB_none_lookup (hf : Funds) (nB : ℚ) :
    ∀ l : List (String × BrokerAgreement), (Inverter.distB hf nB l).2 = none →
      ∀ k ag share, lookupA l k = some ag → Funds.sdiv hf nB = .ok share →
        lookupA (Inverter.distB hf nB l).1 k =
          some { ag with allocated_funds := Funds.addU ag.allocated_funds share } := by
  intro l
  induction l with
  | nil =>
    intro _ k ag share hk _
    simp [lookupA] at hk
  | cons q rest ih =>
    rcases q with ⟨k', ag'⟩
    intro h k ag share hk hs
    rcases hdiv : Funds.sdiv hf nB with e | share0
    · rw [hdiv] at hs
      cases hs
    have hsh : share0 = share := by
      rw [hdiv] at hs
      injection hs
    subst hsh
    have e1 : Inverter.distB hf nB ((k', ag') :: rest) =
        (match ag'.allocated_funds.add share0 with
         | Except.error err => (((k', ag') :: rest), some err)
         | Except.ok a1 =>
           ((k', { ag' with allocated_funds := a1 }) ::
              (Inverter.distB hf nB rest).1,
            (Inverter.distB hf nB rest).2)) := by
      conv_lhs => unfold Inverter.distB
      rw [hdiv]
    rcases hadd : Funds.add ag'.allocated_funds share0 with e | a1
    · exfalso
      rw [e1, hadd] at h
      exact Option.noConfusion h
    · have h' : (Inverter.distB hf nB rest).2 = none := by
        rw [e1, hadd] at h
        exact h
      have e2 : (Inverter.distB hf nB ((k', ag') :: rest)).1 =
          (k', { ag' with allocated_funds := a1 }) ::
            (Inverter.distB hf nB rest).1 := by
        rw [e1, hadd]
      rw [e2, lookupA_cons]
      rw [lookupA_cons] at hk
      by_cases hkk : (k' == k) = true
      · rw [if_pos hkk] at hk ⊢
        injection hk with hk2
        subst hk2
        rw [(Funds.add_ok_iff.1 hadd).2]
      · rw [if_neg hkk] at hk ⊢
        exact ih h' k ag share0 hk hdiv

/-- If the payer distribution loop of `cancel` completes, every payer
agreement received exactly
`(funds − allocated − horizon_funds) × (own contributions / funds total)`. -/
theorem Inverter.distP_none_lookup (price : String → ℚ) (fundsL allocated hf : Funds) :
    ∀ l : List (String × PayerAgreement),
      (Inverter.distP price fundsL allocated hf l).2 = none →
      ∀ k ag x rem sh, lookupA l k = some ag →
        fundsL.sub allocated = .ok x → x.sub hf = .ok rem →
        rem.smul (ag.total_contributions price / fundsL.total price "USD") = .ok sh →
        lookupA (Inverter.distP price fundsL allocated hf l).1 k =
          some { ag with allocated_funds := Funds.addU ag.allocated_funds sh } := by
  intro l
  induction l with
  | nil =>
    intro _ k ag x rem sh hk
    simp [lookupA] at hk
  | cons q rest ih =>
    rcases q with ⟨k', ag'⟩
    intro h k ag x rem sh hk hx hrem hsh
    rcases hx0 : fundsL.sub allocated with e | x0
    · rw [hx0] at hx
      cases hx
    have hxx : x0 = x := by
      rw [hx0] at hx
      injection hx
    subst hxx
    have e1 : Inverter.distP price fundsL allocated hf ((k', ag') :: rest) =
        (match Funds.sub x0 hf with
         | Except.error err => (((k', ag') :: rest), some err)
         | Except.ok rem1 =>
           if fundsL.total price "USD" = 0 then
             (((k', ag') :: rest), some Err.zeroDivision)
           else
             match rem1.smul (ag'.total_contributions price /
                 fundsL.total price "USD") with
             | Except.error err => (((k', ag') :: rest), some err)
             | Except.ok share =>
               match ag'.allocated_funds.add share with
               | Except.error err => (((k', ag') :: rest), some err)
               | Except.ok a1 =>
                 ((k', { ag' with allocated_funds := a1 }) ::
                    (Inverter.distP price fundsL allocated hf rest).1,
                  (Inverter.distP price fundsL allocated hf rest).2)) := by
      conv_lhs => unfold Inverter.distP
      rw [hx0]
    rcases hrem0 : Funds.sub x0 hf with e | rem0
    · rw [hrem0] at hrem
      cases hrem
    have hrr : rem0 = rem := by
      rw [hrem0] at hrem
      injection hrem
    subst hrr
    have e2 : Inverter.distP price fundsL allocated hf ((k', ag') :: rest) =
        (if fundsL.total price "USD" = 0 then
           (((k', ag') :: rest), some Err.zeroDivision)
         else
           match rem0.smul (ag'.total_contributions price /
               fundsL.total price "USD") with
           | Except.error err => (((k', ag') :: rest), some err)
           | Except.ok share =>
             match ag'.allocated_funds.add share with
             | Except.error err => (((k', ag') :: rest), some err)
             | Except.ok a1 =>
               ((k', { ag' with allocated_funds := a1 }) ::
                  (Inverter.distP price fundsL allocated hf rest).1,
                (Inverter.distP price fundsL allocated hf rest).2)) := by
      rw [e1, hrem0]
    by_cases htot : fundsL.total price "USD" = 0
    · exfalso
      rw [e2, if_pos htot] at h
      exact Option.noConfusion h
    have e3 : Inverter.distP price fundsL allocated hf ((k', ag') :: rest) =
        (match rem0.smul (ag'.total_contributions price /
            fundsL.total price "USD") with
         | Except.error err => (((k', ag') :: rest), some err)
         | Except.ok share =>
           match ag'.allocated_funds.add share with
           | Except.error err => (((k', ag') :: rest), some err)
           | Except.ok a1 =>
             ((k', { ag' with allocated_funds := a1 }) ::
                (Inverter.distP price fundsL allocated hf rest).1,
              (Inverter.distP price fundsL allocated hf rest).2)) := by
      rw [e2, if_neg htot]
    rcases hsh' : Funds.smul rem0
        (ag'.total_contributions price / fundsL.total price "USD") with e | sh'
    · exfalso
      rw [e3, hsh'] at h
      exact Option.noConfusion h
    have e4 : Inverter.distP price fundsL allocated hf ((k', ag') :: rest) =
        (match ag'.allocated_funds.add sh' with
         | Except.error err => (((k', ag') :: rest), some err)
         | Except.ok a1 =>
           ((k', { ag' with allocated_funds := a1 }) ::
              (Inverter.distP price fundsL allocated hf rest).1,
            (Inverter.distP price fundsL allocated hf rest).2)) := by
      rw [e3, hsh']
    rcases hadd : Funds.add ag'.allocated_funds sh' with e | a1
    · exfalso
      rw [e4, hadd] at h
      exact Option.noConfusion h
    have h' : (Inverter.distP price fundsL allocated hf rest).2 = none := by
      rw [e4, hadd] at h
      exact h
    have e5 : (Inverter.distP price fundsL allocated hf ((k', ag') :: rest)).1 =
        (k', { ag' with allocated_funds := a1 }) ::
          (Inverter.distP price fundsL allocated hf rest).1 := by
      rw [e4, hadd]
    rw [e5, lookupA_cons]
    rw [lookupA_cons] at hk
    by_cases hkk : (k' == k) = true
    · rw [if_pos hkk] at hk ⊢
      injection hk with hk2
      subst hk2
      have hshsh : sh' = sh := by
        rw [hsh'] at hsh
        injection hsh
      subst hshsh
      rw [(Funds.add_ok_iff.1 hadd).2]
    · rw [if_neg hkk] at hk ⊢
      exact ih h' k ag x0 rem0 sh hk hx0 hrem0 hsh

/-- C3 (amended): on a successful owner `cancel` of a non-cancelled
proposal, the reserve `horizon_funds` is the `min_horizon`-fold accumulation
of `min(get_allocation(), funds − allocated − accumulated)` (Python `min`
on `Funds`); it is split evenly across current brokers
(`horizon_funds / number_of_brokers` each); each payer's `allocated_funds`
grows by `(funds − allocated − horizon_funds) × (own historical
contributions / CURRENT total pooled funds)` — proportional to historical
contributions but normalised by the pool's current total rather than by
total historical contributions, so the amounts distributed sum to the
remainder only when those two coincide — and `cancelled` is set. -/
theorem C3_amended (price : String → ℚ) (p : Inverter) (addr : String)
    (hauth : addr = p.owner_address) (hnc : p.cancelled = false)
    (allocated allocation hf : Funds)
    (hallocd : p.get_allocated_funds = .ok allocated)
    (halloc : p.get_allocation price = .ok allocation)
    (hhf : Inverter.horizonLoop allocation p.funds allocated
      p.cfg.min_horizon Funds.empty = .ok hf)
    (hdb : (Inverter.distB hf (p.get_number_of_brokers : ℚ) p.broker_agreements).2
      = none)
    (hdp : (Inverter.distP price p.funds allocated hf p.payer_agreements).2 = none) :
    (p.cancel price addr).2 = .ok ∧
    (p.cancel price addr).1.cancelled = true ∧
    (p.cancel price addr).1.funds = p.funds ∧
    (p.cancel price addr).1.stake = p.stake ∧
    (∀ k ag share, lookupA p.broker_agreements k = some ag →
      Funds.sdiv hf (p.get_number_of_brokers : ℚ) = .ok share →
      lookupA (p.cancel price addr).1.broker_agreements k =
        some { ag with allocated_funds := Funds.addU ag.allocated_funds share }) ∧
    (∀ k ag x rem sh, lookupA p.payer_agreements k = some ag →
      p.funds.sub allocated = .ok x → x.sub hf = .ok rem →
      rem.smul (ag.total_contributions price / p.funds.total price "USD") = .ok sh →
      lookupA (p.cancel price addr).1.payer_agreements k =
        some { ag with allocated_funds := Funds.addU ag.allocated_funds sh }) := by
  have c1 : p.cancel price addr =
      (match Inverter.horizonLoop allocation p.funds allocated
          p.cfg.min_horizon Funds.empty with
       | .error e => (p, Outcome.fatal e)
       | .ok hf1 =>
         match (Inverter.distB hf1 (p.get_number_of_brokers : ℚ)
             p.broker_agreements).2 with
         | some e =>
           ({ p with broker_agreements :=
              (Inverter.distB hf1 (p.get_number_of_brokers : ℚ)
                p.broker_agreements).1 },
            Outcome.fatal e)
         | none =>
           match (Inverter.distP price p.funds allocated hf1 p.payer_agreements).2 with
           | some e =>
             ({ p with
                 broker_agreements :=
                   (Inverter.distB hf1 (p.get_number_of_brokers : ℚ)
                     p.broker_agreements).1
                 payer_agreements :=
                   (Inverter.distP price p.funds allocated hf1 p.payer_agreements).1 },
              Outcome.fatal e)
           | none =>
             ({ p with
                 broker_agreements :=
                   (Inverter.distB hf1 (p.get_number_of_brokers : ℚ)
                     p.broker_agreements).1
                 payer_agreements :=
                   (Inverter.distP price p.funds allocated hf1 p.payer_agreements).1
                 cancelled := true },
              Outcome.ok)) := by
    unfold Inverter.cancel
    rw [if_neg (by rw [hauth]; exact fun hne => hne rfl),
      if_neg (by rw [hnc]; exact Bool.false_ne_true), hallocd, halloc]
  have c2 : p.cancel price addr =
      (match (Inverter.distB hf (p.get_number_of_brokers : ℚ)
          p.broker_agreements).2 with
       | some e =>
         ({ p with broker_agreements :=
            (Inverter.distB hf (p.get_number_of_brokers : ℚ)
              p.broker_agreements).1 },
          Outcome.fatal e)
       | none =>
         match (Inverter.distP price p.funds allocated hf p.payer_agreements).2 with
         | some e =>
           ({ p with
               broker_agreements :=
                 (Inverter.distB hf (p.get_number_of_brokers : ℚ)
                   p.broker_agreements).1
               payer_agreements :=
                 (Inverter.distP price p.funds allocated hf p.payer_agreements).1 },
            Outcome.fatal e)
         | none =>
           ({ p with
               broker_agreements :=
                 (Inverter.distB hf (p.get_number_of_brokers : ℚ)
                   p.broker_agreements).1
               payer_agreements :=
                 (Inverter.distP price p.funds allocated hf p.payer_agreements).1
               cancelled := true },
            Outcome.ok)) := by
    rw [c1, hhf]
  have hcan : p.cancel price addr =
      ({ p with
          broker_agreements :=
            (Inverter.distB hf (p.get_number_of_brokers : ℚ) p.broker_agreements).1
          payer_agreements :=
            (Inverter.distP price p.funds allocated hf p.payer_agreements).1
          cancelled := true },
       .ok) := by
    rw [c2, hdb, hdp]
  rw [hcan]
  refine ⟨rfl, rfl, rfl, rfl, fun k ag share hk hs => ?_, fun k ag x rem sh hk hx hrem hsh => ?_⟩
  · exact Inverter.distB_none_lookup hf (p.get_number_of_brokers : ℚ)
      p.broker_agreements hdb k ag share hk hs
  · exact Inverter.distP_none_lookup price p.funds allocated hf
      p.payer_agreements hdp k ag x rem sh hk hx hrem hsh

/-- The C3 proposal state: pool 400 USD, one broker with zero allocation,
one payer (the owner) whose recorded historical contributions total
500 USD (100 USD more than the pool currently holds). -/
def c3Inverter : Inverter :=
  { public := "prop3", owner_address := "owner1"
    funds := Funds.mkF [("USD", 400)], stake := Funds.mkF [("USD", 50)]
    cancelled := false, current_epoch := 30, started := true
    broker_agreements := [("b1", ⟨0, Funds.mkF [("USD", 50)], Funds.empty, Funds.empty⟩)]
    payer_agreements :=
      [("owner1", ⟨[(0, Funds.mkF [("USD", 500)])], Funds.empty, Funds.empty⟩)]
    broker_whitelist := ⟨.noVote, ⟨[], [], []⟩, 1/2⟩
    payer_whitelist := ⟨.noVote, ⟨[], [], []⟩, 1/2⟩
    cfg := Config.defaults }

/-- The payer distribution the C3 claim describes: each payer receives the
remainder `funds − already_allocated − horizon_funds` times their share of
TOTAL HISTORICAL CONTRIBUTIONS (so that the full remainder is always
distributed).  Stated from the claim's words, for comparison with the
code's actual rule. -/
def claimPayerDelta (price : String → ℚ) (p : Inverter) (allocated hf : Funds)
    (ag : PayerAgreement) : ℚ :=
  (p.funds.total price "USD" - allocated.total price "USD" - hf.total price "USD") *
    (ag.total_contributions price /
      (p.payer_agreements.map (fun q => q.2.total_contributions price)).sum)

/-- The allocated-funds snapshot `cancel` computes for `c3Inverter`. -/
def c3Allocated : Funds := (c3Inverter.get_allocated_funds.toOption).getD Funds.empty

/-- The per-epoch allocation `cancel` computes for `c3Inverter`. -/
def c3Allocation : Funds :=
  ((c3Inverter.get_allocation unitPrice).toOption).getD Funds.empty

/-- The horizon reserve `cancel` computes for `c3Inverter`. -/
def c3Hf : Funds :=
  ((Inverter.horizonLoop c3Allocation c3Inverter.funds c3Allocated
    c3Inverter.cfg.min_horizon Funds.empty).toOption).getD Funds.empty

/-- The owner's payer agreement in `c3Inverter`. -/
def c3Pa : PayerAgreement := ⟨[(0, Funds.mkF [("USD", 500)])], Funds.empty, Funds.empty⟩

/-- C3 counterexample: cancelling `c3Inverter` credits the only payer with
`(400 − 0 − 70) × 500/400 = 412.5` USD — computed against the pool's
CURRENT total funds — whereas the claim's rule (remainder distributed in
proportion to each payer's share of total historical contributions) yields
`(400 − 0 − 70) × 500/500 = 330` USD; the code there also earmarks more
value (70 + 412.5) than the 400 the pool holds. -/
theorem C3_counterexample :
    (c3Inverter.cancel unitPrice "owner1").2 = Outcome.ok ∧
    ((lookupA (c3Inverter.cancel unitPrice "owner1").1.payer_agreements
        "owner1").getD PayerAgreement.emptyA).allocated_funds.amt "USD" = 825/2 ∧
    claimPayerDelta unitPrice c3Inverter c3Allocated c3Hf c3Pa = 330 ∧
    (825/2 : ℚ) ≠ 330 :=
  ⟨by with_unfolding_all rfl, by with_unfolding_all rfl,
   by with_unfolding_all rfl, by norm_num⟩

/-- The code's payer share for `c3Inverter`'s owner. -/
def c3Share : Funds :=
  ((Funds.smul (((Funds.sub ((Funds.sub c3Inverter.funds c3Allocated).toOption.getD
      Funds.empty) c3Hf).toOption).getD Funds.empty)
    (c3Pa.total_contributions unitPrice /
      c3Inverter.funds.total unitPrice "USD")).toOption).getD Funds.empty

/-- Concrete instantiation of `C3_amended` at `c3Inverter`. -/
theorem C3_amended_witness :
    lookupA (c3Inverter.cancel unitPrice "owner1").1.payer_agreements "owner1" =
      some { c3Pa with allocated_funds := Funds.addU c3Pa.allocated_funds c3Share } :=
  (C3_amended unitPrice c3Inverter "owner1" rfl rfl c3Allocated c3Allocation c3Hf
      (by with_unfolding_all rfl) (by with_unfolding_all rfl)
      (by with_unfolding_all rfl) (by with_unfolding_all rfl)
      (by with_unfolding_all rfl)).2.2.2.2.2 "owner1" c3Pa
    ((Funds.sub c3Inverter.funds c3Allocated).toOption.getD Funds.empty)
    ((Funds.sub ((Funds.sub c3Inverter.funds c3Allocated).toOption.getD Funds.empty)
      c3Hf).toOption.getD Funds.empty)
    c3Share
    (by with_unfolding_all rfl) (by with_unfolding_all rfl)
    (by with_unfolding_all rfl) (by with_unfolding_all rfl)

/-- Concrete instantiation of `C2_nonneg_and_atomic_failure`: subtracting 5
USD from 1 USD fails and the `-=` statement leaves the ledger unchanged. -/
theorem C2_witness :
    Funds.sub (Funds.mkF [("USD", 1)]) (Funds.mkF [("USD", 5)]) =
        .error .negativeBalance ∧
    Funds.isub (Funds.mkF [("USD", 1)]) (Funds.mkF [("USD", 5)]) =
        Funds.mkF [("USD", 1)] :=
  ⟨by with_unfolding_all rfl,
   C2_nonneg_and_atomic_failure.2.2.2.2.2 _ _ Err.negativeBalance
     (by with_unfolding_all rfl)⟩

/-! ## C2: a negative ledger state reachable through the public API

The checked operations protect each individual `+=`/`-=`, but
`__claim_broker_funds` debits the pool with raw per-token item writes, and
`cancel` can earmark more than the pool holds.  The following trace uses only
public operations, every call is non-fatal, and it ends with the pool's
`funds` ledger holding a negative USD amount. -/

/-- A `NoVote` mechanism with a fresh state: admits every subject. -/
def c2cxNoVote : Mechanism := ⟨.noVote, ⟨[], [], []⟩, 1⟩

/-- The C2 trace owner: a wallet holding 450 USD. -/
def c2cxOwner : Wallet := ⟨"owner", Funds.mkF [("USD", 450)], [], [], []⟩

/-- The C2 trace broker: a wallet holding 5 USD (exactly the minimum
stake). -/
def c2cxBroker : Wallet := ⟨"b1", Funds.mkF [("USD", 5)], [], [], []⟩

/-- Trace step 1: the owner deploys a 450 USD pool with the default
parameters and `NoVote` whitelists. -/
def c2cxDeploy : DeployResult :=
  Wallet.deploy unitPrice c2cxOwner (Funds.mkF [("USD", 450)]) Config.defaults
    "prop" c2cxNoVote c2cxNoVote

/-- The owner's wallet after the deployment (the deployment succeeds, so the
fallback arm is never taken). -/
def c2cxW0 : Wallet :=
  match c2cxDeploy with
  | .deployed w _ => w
  | _ => c2cxOwner

/-- The freshly deployed pool. -/
def c2cxP0 : Inverter :=
  match c2cxDeploy with
  | .deployed _ p => p
  | _ => ⟨"", "", Funds.empty, Funds.empty, false, 0, false, [], [],
          c2cxNoVote, c2cxNoVote, Config.defaults⟩

/-- Whether the deployment succeeded. -/
def c2cxDeployed : Bool :=
  match c2cxDeploy with
  | .deployed _ _ => true
  | _ => false

/-- Trace step 2: the broker joins, staking 5 USD. -/
def c2cxJoin : Wallet × Inverter × Outcome :=
  c2cxP0.join unitPrice c2cxBroker (Funds.mkF [("USD", 5)])

/-- Trace step 3: five epochs pass; each allocates 10 USD to the sole
broker. -/
def c2cxEpochs : Inverter × Option Err :=
  Inverter.iter_epoch unitPrice c2cxJoin.2.1 5

/-- Trace step 4: the broker claims its 50 USD; the pool drops to 400 USD
while the owner's historical contributions remain 450 USD. -/
def c2cxClaim1 : Wallet × Inverter × Option Err :=
  c2cxEpochs.1.claim c2cxJoin.1

/-- Trace step 5: the owner cancels.  `horizon_funds` = 70 USD goes to the
broker and `(400 − 0 − 70) × 450/400` = 371.25 USD to the owner-payer:
441.25 USD earmarked against a 400 USD pool. -/
def c2cxCancel : Inverter × Outcome :=
  c2cxClaim1.2.1.cancel unitPrice "owner"

/-- Trace step 6: the owner's claim — the checked payer path succeeds,
leaving the pool at 28.75 USD. -/
def c2cxClaim2 : Wallet × Inverter × Option Err :=
  c2cxCancel.1.claim c2cxW0

/-- Trace step 7: the broker's claim — the unchecked per-token writes debit
another 70 USD from the 28.75 USD pool. -/
def c2cxClaim3 : Wallet × Inverter × Option Err :=
  c2cxClaim2.2.1.claim c2cxClaim1.1

/-- C2: counterexample to the reachable-state nonnegativity conjunct.
Starting from nonnegative wallets, the public-API trace — deploy 450 USD;
broker joins with stake 5; five epochs allocate 50 USD to the broker; the
broker claims; the owner cancels; the owner claims; the broker claims — is
non-fatal at every step, yet leaves the pool's `funds` ledger at
USD −165/4 = −41.25: `cancel` earmarks more than the pool holds and the raw
per-token writes of `__claim_broker_funds` debit the pool without a
negativity check, so not every `Funds` state reachable through the public
API has all per-token amounts ≥ 0. -/
theorem C2_counterexample :
    c2cxOwner.funds.Nonneg ∧ c2cxBroker.funds.Nonneg ∧
    c2cxDeployed = true ∧
    c2cxJoin.2.2 = Outcome.ok ∧
    c2cxEpochs.2 = none ∧
    c2cxClaim1.2.2 = none ∧
    c2cxCancel.2 = Outcome.ok ∧
    c2cxClaim2.2.2 = none ∧
    c2cxClaim3.2.2 = none ∧
    c2cxClaim3.2.1.funds.amt "USD" = -165/4 := by
  refine ⟨Funds.mkF_nonneg _ ?_, Funds.mkF_nonneg _ ?_, ?_, ?_, ?_, ?_, ?_,
    ?_, ?_, ?_⟩
  · intro q hq
    rw [List.mem_singleton] at hq
    rw [hq]
    norm_num
  · intro q hq
    rw [List.mem_singleton] at hq
    rw [hq]
    norm_num
  · with_unfolding_all rfl
  · with_unfolding_all rfl
  · with_unfolding_all rfl
  · with_unfolding_all rfl
  · with_unfolding_all rfl
  · with_unfolding_all rfl
  · with_unfolding_all rfl
  · with_unfolding_all rfl

end PropInv
